import Mathlib

/-!
# Shallow embedding of the `voting` package

This file embeds the data model and the resolution algorithms of the
`voting` Python package (ballot value objects under `voting/ballots/`,
resolvers under `voting/methods/`) and proves properties of that
embedding.

Modelling conventions, fixed once for the whole file:

* Python `dict`s are association lists in insertion order (`Dict α`);
  `d[k] = v` overwrites in place or appends (`dinsert`), `d[k] += x` with a
  membership guard at the call site is `daddAt`, and an *unguarded*
  `d[k] += 1` is `dincr?`, whose `none` models the `KeyError` raised on a
  missing key.
* Python `set`s are de-duplicated lists in first-insertion order
  (`dedupFirst`); only membership, iteration and removal are used.
* Python `float` metric fields (averages, utilizations, rates) are modelled
  as exact rationals; no claim in this development depends on them.
* Fallible code returns `Except String` (validation errors, `KeyError`) or
  `Option` where a single failure mode exists.
* The process-wide randomness drawn by `random.shuffle` inside
  `_sort_victories` is modelled as an explicitly passed function
  `shuffle : List Victory → List Victory`; a run of the program corresponds
  to one draw of that function.
* Every resolver returns, next to its result record, the list of argument
  lists it passed to the injected tie-break function, so that "the
  tie-break function was invoked" is expressible.
-/

namespace VotingModel

abbrev CandidateId := String
abbrev VoterId := String

/-- `voting/types.py`: a candidate; identity is by `id`. -/
structure Candidate where
  id : CandidateId
  name : String
deriving DecidableEq, Repr

/-- Python dict with string keys, in insertion order. -/
abbrev Dict (α : Type) := List (CandidateId × α)

/-- Python `d.get(k)` / `d[k]` read. -/
def dlookup {α : Type} : Dict α → CandidateId → Option α
  | [], _ => none
  | (k', v) :: rest, k => if k' = k then some v else dlookup rest k

/-- Python `k in d`. -/
def dmem {α : Type} (d : Dict α) (k : CandidateId) : Bool :=
  (dlookup d k).isSome

/-- Python `d[k] = v`: overwrite in place if the key exists, else append. -/
def dinsert {α : Type} : Dict α → CandidateId → α → Dict α
  | [], k, v => [(k, v)]
  | (k', v') :: rest, k, v =>
    if k' = k then (k, v) :: rest else (k', v') :: dinsert rest k v

/-- Python `d[k] += x` at call sites that have already checked `k in d`;
on the (unreachable) missing key it leaves the dict unchanged. -/
def daddAt : Dict Int → CandidateId → Int → Dict Int
  | [], _, _ => []
  | (k', v') :: rest, k, x =>
    if k' = k then (k', v' + x) :: rest else (k', v') :: daddAt rest k x

/-- Python `d[k] += 1` with no membership guard; `none` is the `KeyError`. -/
def dincr? : Dict Int → CandidateId → Option (Dict Int)
  | [], _ => none
  | (k', v') :: rest, k =>
    if k' = k then some ((k', v' + 1) :: rest)
    else (dincr? rest k).map ((k', v') :: ·)

def dkeys {α : Type} (d : Dict α) : List CandidateId := d.map Prod.fst

def dvalues {α : Type} (d : Dict α) : List α := d.map Prod.snd

/-- Python `max(d.values())` on a non-empty dict; call sites use
`max(...) if d else 0`, which this definition absorbs by returning 0 on
the empty dict. -/
def maxValues : Dict Int → Int
  | [] => 0
  | (_, v) :: rest => rest.foldl (fun m p => max m p.2) v

/-- Python `min(d.values())` on a non-empty dict (0 on the empty dict;
only reached behind a non-emptiness guard). -/
def minValues : Dict Int → Int
  | [] => 0
  | (_, v) :: rest => rest.foldl (fun m p => min m p.2) v

/-- Model of a Python `set` built by iterating a list: keep the first
occurrence of each element, in encounter order. -/
def dedupFirst (l : List CandidateId) : List CandidateId :=
  l.foldl (fun acc x => if acc.contains x then acc else acc ++ [x]) []

/-- `voting/types.py`: the injectable tie-break function. -/
abbrev TiebreakFunction := List CandidateId → CandidateId

/-- Instrumentation: the list of argument lists passed to the tie-break
function during one resolution call, in call order. -/
abbrev Calls := List (List CandidateId)

/-- `voting/types.py`: the base election result record. -/
structure ElectionResult where
  winners : List CandidateId
  vote_counts : Dict Int
  total_ballots : Nat
  abstentions : Nat
  tiebreak_applied : Bool
deriving DecidableEq, Repr

/-! ## Ballot value objects (`voting/ballots/`) -/

/-- `single_choice.py`. -/
structure SingleChoiceBallot where
  voter_id : VoterId
  choice : Option CandidateId
deriving DecidableEq, Repr

def sc_is_abstention (b : SingleChoiceBallot) : Bool := b.choice.isNone

/-- `approval.py`: value view used by the resolver (the Python `set` of
approvals as a de-duplicated list). The constructor-level aliasing
behaviour of `create_approval_ballot` is modelled separately with an
explicit store, further below. -/
structure ApprovalBallot where
  voter_id : VoterId
  approvals : List CandidateId
deriving DecidableEq, Repr

def ap_is_abstention (b : ApprovalBallot) : Bool := b.approvals.length = 0

/-- `ranked_choice.py`. -/
structure RankedChoiceBallot where
  voter_id : VoterId
  ranking : List CandidateId
  rank_lookup : Dict Nat
deriving DecidableEq, Repr

def rc_is_abstention (b : RankedChoiceBallot) : Bool := b.ranking.length = 0

/-- `ranked_choice.py` `get_rank`: 1-indexed rank, `None` if unranked. -/
def get_rank (b : RankedChoiceBallot) (c : CandidateId) : Option Nat :=
  dlookup b.rank_lookup c

/-- `ranked_choice.py` `prefers`: `None` when either candidate is absent. -/
def prefers (b : RankedChoiceBallot) (a c : CandidateId) : Option Bool :=
  match dlookup b.rank_lookup a, dlookup b.rank_lookup c with
  | some ra, some rc => some (ra < rc)
  | _, _ => none

/-- `ranked_choice.py` `create_ranked_choice_ballot`. `none` ranking is an
abstention; duplicates are rejected; when a candidate list is supplied the
ranking must be exactly that set. The `rank_lookup` comprehension is built
by `enum`; duplicate keys cannot reach it because duplicates were already
rejected. -/
def create_ranked_choice_ballot (voter_id : VoterId)
    (ranking : Option (List CandidateId))
    (candidates : Option (List CandidateId)) :
    Except String RankedChoiceBallot :=
  match ranking with
  | none => .ok ⟨voter_id, [], []⟩
  | some ranking =>
    if ranking.length ≠ (dedupFirst ranking).length then
      .error "Ranking contains duplicate candidates"
    else
      let checked : Except String Unit :=
        match candidates with
        | none => .ok ()
        | some cands =>
          if ranking.all (fun c => cands.contains c)
              ∧ cands.all (fun c => ranking.contains c) then .ok ()
          else if ¬ cands.all (fun c => ranking.contains c)
              ∧ ¬ ranking.all (fun c => cands.contains c) then
            .error "Ranking has wrong candidates"
          else if ¬ cands.all (fun c => ranking.contains c) then
            .error "Ranking is incomplete"
          else
            .error "Ranking contains unknown candidates"
      match checked with
      | .error e => .error e
      | .ok _ =>
        .ok ⟨voter_id, ranking, ranking.enum.map (fun p => (p.2, p.1 + 1))⟩

/-- `score.py`. -/
structure ScoreBallot where
  voter_id : VoterId
  scores : Dict Int
deriving DecidableEq, Repr

def sb_is_abstention (b : ScoreBallot) : Bool := b.scores.length = 0

/-- `score.py` `get_score`: 0 if not scored. -/
def get_score (b : ScoreBallot) (c : CandidateId) : Int :=
  (dlookup b.scores c).getD 0

/-- `quadratic.py`. -/
structure QuadraticBallot where
  voter_id : VoterId
  allocations : Dict Int
  credit_budget : Int
deriving DecidableEq, Repr

def qb_is_abstention (b : QuadraticBallot) : Bool := b.allocations.length = 0

/-- `quadratic.py` `quadratic_total_cost`. -/
def quadratic_total_cost (b : QuadraticBallot) : Int :=
  (b.allocations.map (fun p => p.2 * p.2)).sum

/-- Validation loop of `create_quadratic_ballot`: the per-entry checks, in
source order (the `isinstance(votes, int)` check always passes in this
embedding because allocations are integers by type). -/
def qValidateEntries (allow_negative : Bool) : Dict Int → Except String Unit
  | [] => .ok ()
  | (_, votes) :: rest =>
    if votes = 0 then .error "Votes must be non-zero"
    else if ¬ allow_negative ∧ votes < 0 then .error "Negative votes not allowed"
    else qValidateEntries allow_negative rest

/-- `quadratic.py` `create_quadratic_ballot`. -/
def create_quadratic_ballot (voter_id : VoterId)
    (allocations : Option (Dict Int)) (credit_budget : Int)
    (allow_negative : Bool) (validate : Bool) :
    Except String QuadraticBallot :=
  match allocations with
  | none => .ok ⟨voter_id, [], credit_budget⟩
  | some allocs =>
    if validate then
      match qValidateEntries allow_negative allocs with
      | .error e => .error e
      | .ok _ =>
        if (allocs.map (fun p => p.2 * p.2)).sum > credit_budget then
          .error "Total cost exceeds credit budget"
        else .ok ⟨voter_id, allocs, credit_budget⟩
    else .ok ⟨voter_id, allocs, credit_budget⟩

/-! ## Common winner selection

The final winner-selection block is written out identically in
`plurality.py`, `approval.py`, `score.py` and `borda.py`:
`max(...) if d else 0`, the tied list comprehension and the
`len(tied) == 0 / == 1 / else` branch. It is embedded once. -/

def selectWinnerStd (vote_counts : Dict Int) (tb : TiebreakFunction) :
    List CandidateId × Bool × Calls :=
  let max_votes := maxValues vote_counts
  let tied := (vote_counts.filter (fun p => p.2 = max_votes)).map (·.1)
  if tied.length = 0 then ([], false, [])
  else if tied.length = 1 then (tied, false, [])
  else ([tb tied], true, [tied])

/-! ## Plurality (`voting/methods/plurality.py`) -/

def resolve_plurality (candidates : List Candidate)
    (ballots : List SingleChoiceBallot) (tb : TiebreakFunction) :
    ElectionResult × Calls :=
  let init : Dict Int := candidates.foldl (fun d c => dinsert d c.id 0) []
  let tallied :=
    ballots.foldl (fun (st : Dict Int × Nat) b =>
      match b.choice with
      | none => (st.1, st.2 + 1)
      | some c => if dmem st.1 c then (daddAt st.1 c 1, st.2) else st)
      (init, 0)
  let sel := selectWinnerStd tallied.1 tb
  (⟨sel.1, tallied.1, ballots.length, tallied.2, sel.2.1⟩, sel.2.2)

/-! ## Approval (`voting/methods/approval.py`) -/

structure ApprovalResult where
  winners : List CandidateId
  vote_counts : Dict Int
  total_ballots : Nat
  abstentions : Nat
  tiebreak_applied : Bool
  avg_approvals_per_ballot : ℚ
  approval_rates : Dict ℚ
deriving DecidableEq, Repr

def resolve_approval (candidates : List Candidate)
    (ballots : List ApprovalBallot) (tb : TiebreakFunction) :
    ApprovalResult × Calls :=
  let init : Dict Int := candidates.foldl (fun d c => dinsert d c.id 0) []
  let valid_ids := dkeys init
  -- state: (vote_counts, abstentions, total_approvals)
  let tallied :=
    ballots.foldl (fun (st : Dict Int × Nat × Nat) b =>
      if ap_is_abstention b then (st.1, st.2.1 + 1, st.2.2)
      else
        let valid := b.approvals.filter (fun c => valid_ids.contains c)
        (valid.foldl (fun d c => daddAt d c 1) st.1, st.2.1,
          st.2.2 + valid.length))
      (init, 0, 0)
  let vote_counts := tallied.1
  let abstentions := tallied.2.1
  let total_approvals := tallied.2.2
  let non_abstaining := ballots.length - abstentions
  let avg : ℚ :=
    if non_abstaining > 0 then (total_approvals : ℚ) / (non_abstaining : ℚ)
    else 0
  let rates : Dict ℚ :=
    vote_counts.foldl (fun r p =>
      dinsert r p.1
        (if non_abstaining > 0 then (p.2 : ℚ) / (non_abstaining : ℚ) else 0)) []
  let sel := selectWinnerStd vote_counts tb
  (⟨sel.1, vote_counts, ballots.length, abstentions, sel.2.1, avg, rates⟩,
    sel.2.2)

/-! ## Score (`voting/methods/score.py`) -/

structure ScoreResult where
  winners : List CandidateId
  vote_counts : Dict Int
  total_ballots : Nat
  abstentions : Nat
  tiebreak_applied : Bool
  score_totals : Dict Int
  avg_scores : Dict ℚ
  max_possible_score : Int
  score_percentages : Dict ℚ
deriving DecidableEq, Repr

def MAX_SCORE : Int := 10

def resolve_score (candidates : List Candidate)
    (ballots : List ScoreBallot) (tb : TiebreakFunction) :
    ScoreResult × Calls :=
  let candidate_ids := candidates.map (·.id)
  let init : Dict Int := candidate_ids.foldl (fun d cid => dinsert d cid 0) []
  let tallied :=
    ballots.foldl (fun (st : Dict Int × Nat) b =>
      if sb_is_abstention b then (st.1, st.2 + 1)
      else
        (candidate_ids.foldl (fun d cid => daddAt d cid (get_score b cid)) st.1,
          st.2))
      (init, 0)
  let score_totals := tallied.1
  let abstentions := tallied.2
  let non_abstaining := ballots.length - abstentions
  let max_possible : Int :=
    if non_abstaining > 0 then MAX_SCORE * (non_abstaining : Int) else 0
  let avg_scores : Dict ℚ :=
    candidate_ids.foldl (fun r cid =>
      dinsert r cid
        (if non_abstaining > 0 then
          (((dlookup score_totals cid).getD 0 : Int) : ℚ) / (non_abstaining : ℚ)
        else 0)) []
  let score_percentages : Dict ℚ :=
    candidate_ids.foldl (fun r cid =>
      dinsert r cid
        (if max_possible > 0 then
          ((((dlookup score_totals cid).getD 0 : Int) : ℚ) / (max_possible : ℚ)) * 100
        else 0)) []
  let sel := selectWinnerStd score_totals tb
  (⟨sel.1, score_totals, ballots.length, abstentions, sel.2.1, score_totals,
      avg_scores, max_possible, score_percentages⟩,
    sel.2.2)

/-! ## Borda (`voting/methods/borda.py`) -/

structure BordaResult where
  winners : List CandidateId
  vote_counts : Dict Int
  total_ballots : Nat
  abstentions : Nat
  tiebreak_applied : Bool
  point_totals : Dict Int
  max_points_per_ballot : Int
  avg_points_per_candidate : ℚ
deriving DecidableEq, Repr

def resolve_borda (candidates : List Candidate)
    (ballots : List RankedChoiceBallot) (tb : TiebreakFunction) :
    BordaResult × Calls :=
  let n := candidates.length
  let max_points : Int := if n > 0 then (n : Int) - 1 else 0
  let init : Dict Int := candidates.foldl (fun d c => dinsert d c.id 0) []
  let tallied :=
    ballots.foldl (fun (st : Dict Int × Nat) b =>
      if rc_is_abstention b then (st.1, st.2 + 1)
      else
        (b.ranking.enum.foldl (fun d p =>
          if dmem d p.2 then daddAt d p.2 (max_points - (p.1 : Int)) else d) st.1,
          st.2))
      (init, 0)
  let point_totals := tallied.1
  let abstentions := tallied.2
  let avg : ℚ :=
    if n > 0 then ((dvalues point_totals).sum : ℚ) / (n : ℚ) else 0
  let sel := selectWinnerStd point_totals tb
  (⟨sel.1, point_totals, ballots.length, abstentions, sel.2.1, point_totals,
      max_points, avg⟩,
    sel.2.2)

/-! ## Quadratic (`voting/methods/quadratic.py`) -/

structure QuadraticResult where
  winners : List CandidateId
  vote_counts : Dict Int
  total_ballots : Nat
  abstentions : Nat
  tiebreak_applied : Bool
  vote_totals : Dict Int
  total_credits_spent : Int
  total_credits_available : Int
  overall_utilization : ℚ
  avg_voter_utilization : ℚ
  candidates_with_negative_totals : Nat
deriving DecidableEq, Repr

/-- Loop state of `resolve_quadratic`. -/
structure QState where
  vote_totals : Dict Int
  abstentions : Nat
  total_credits_spent : Int
  total_credits_available : Int
  voter_utilizations : List ℚ
  counted_vote_allocations : Nat
deriving Repr

/-- Per-ballot inner loop of `resolve_quadratic`: add recognized
allocations; returns (vote_totals, counted, known_cost). -/
def qTallyBallot (candidate_ids : List CandidateId) (st : Dict Int × Nat × Int)
    (allocs : Dict Int) : Dict Int × Nat × Int :=
  allocs.foldl (fun acc p =>
    if candidate_ids.contains p.1 then
      (daddAt acc.1 p.1 p.2, acc.2.1 + 1, acc.2.2 + p.2 * p.2)
    else acc) st

def qStepBallot (candidate_ids : List CandidateId) (st : QState)
    (b : QuadraticBallot) : QState :=
  if qb_is_abstention b then { st with abstentions := st.abstentions + 1 }
  else
    let t := qTallyBallot candidate_ids (st.vote_totals, 0, 0) b.allocations
    { st with
      vote_totals := t.1
      counted_vote_allocations := st.counted_vote_allocations + t.2.1
      total_credits_spent := st.total_credits_spent + t.2.2
      total_credits_available := st.total_credits_available + b.credit_budget
      voter_utilizations := st.voter_utilizations ++
        [if b.credit_budget = 0 then 0 else (t.2.2 : ℚ) / (b.credit_budget : ℚ)] }

def resolve_quadratic (candidates : List Candidate)
    (ballots : List QuadraticBallot) (tb : TiebreakFunction) :
    QuadraticResult × Calls :=
  let candidate_ids := dedupFirst (candidates.map (·.id))
  let init : Dict Int := candidate_ids.foldl (fun d cid => dinsert d cid 0) []
  let st := ballots.foldl (qStepBallot candidate_ids)
    ⟨init, 0, 0, 0, [], 0⟩
  let overall_utilization : ℚ :=
    if st.total_credits_available > 0 then
      (st.total_credits_spent : ℚ) / (st.total_credits_available : ℚ)
    else 0
  let avg_voter_utilization : ℚ :=
    if st.voter_utilizations.length ≠ 0 then
      st.voter_utilizations.sum / (st.voter_utilizations.length : ℚ)
    else 0
  let negatives := ((dvalues st.vote_totals).filter (fun t => t < 0)).length
  let sel : List CandidateId × Bool × Calls :=
    if st.counted_vote_allocations = 0 then ([], false, [])
    else
      let max_total := maxValues st.vote_totals
      let tied := (st.vote_totals.filter (fun p => p.2 = max_total)).map (·.1)
      if tied.length = 1 then (tied, false, [])
      else ([tb tied], true, [tied])
  (⟨sel.1, st.vote_totals, ballots.length, st.abstentions, sel.2.1,
      st.vote_totals, st.total_credits_spent, st.total_credits_available,
      overall_utilization, avg_voter_utilization, negatives⟩,
    sel.2.2)

/-! ## Instant-runoff (`voting/methods/irv.py`)

The `while True:` loop is embedded as one pure step function `irvStep`
(one loop iteration, including the in-iteration final-round recount and
returns) driven by a fuel-indexed iterator `irvLoop`; `none` marks fuel
exhaustion and is proved unreachable for the fuel `resolve_irv` supplies.
`Except` carries the `KeyError` that `vote_counts[choice] += 1` raises
when a ballot's active choice is not a remaining candidate. -/

structure IRVRound where
  round_number : Nat
  vote_counts : Dict Int
  exhausted_ballots : Nat
  active_ballots : Nat
  eliminated : List CandidateId
  elimination_was_tiebreak : Bool
deriving DecidableEq, Repr

structure IRVResult where
  winners : List CandidateId
  vote_counts : Dict Int
  total_ballots : Nat
  abstentions : Nat
  tiebreak_applied : Bool
  rounds : List IRVRound
  total_exhausted : Nat
  winning_round : Nat
deriving DecidableEq, Repr

/-- `irv.py` `_get_active_choice`. -/
def get_active_choice (b : RankedChoiceBallot) (eliminated : List CandidateId) :
    Option CandidateId :=
  b.ranking.find? (fun c => ¬ eliminated.contains c)

/-- One ballot of the per-round tally loop: count the active choice, or
mark the ballot exhausted; an unknown active choice raises the `KeyError`
of `vote_counts[choice] += 1`. -/
def irvCountStep (eliminated : List CandidateId)
    (st : Except String (Dict Int × Nat × Nat)) (b : RankedChoiceBallot) :
    Except String (Dict Int × Nat × Nat) :=
  match st with
  | .error e => .error e
  | .ok (vc, ex, act) =>
    match get_active_choice b eliminated with
    | none => .ok (vc, ex + 1, act)
    | some c =>
      match dincr? vc c with
      | none => .error "KeyError"
      | some vc' => .ok (vc', ex, act + 1)

/-- One tally pass over the active ballots (used both by the main round and
by the final one-candidate round, which runs the same loop): returns
(vote_counts, exhausted_this_round, active_this_round), or the `KeyError`
from an unguarded `vote_counts[choice] += 1`. -/
def irvCount (activeBallots : List RankedChoiceBallot)
    (remaining eliminated : List CandidateId) :
    Except String (Dict Int × Nat × Nat) :=
  let init : Dict Int := remaining.foldl (fun d cid => dinsert d cid 0) []
  activeBallots.foldl (irvCountStep eliminated) (.ok (init, 0, 0))

/-- Read-only context of the IRV loop. -/
structure IRVCtx where
  activeBallots : List RankedChoiceBallot
  total_ballots : Nat
  abstentions : Nat
  tb : TiebreakFunction

/-- Mutable state of the IRV loop. -/
structure IRVState where
  remaining : List CandidateId
  eliminated : List CandidateId
  round_number : Nat
  rounds : List IRVRound
  calls : Calls

inductive IRVStep where
  | done : IRVResult → Calls → IRVStep
  | next : IRVState → IRVStep

/-- One iteration of the `while True:` loop of `resolve_irv`, in source
order: tally, majority check, empty-tally check, minimum/elimination
branch, round record, elimination, and the in-iteration returns for one
or zero remaining candidates. -/
def irvStep (ctx : IRVCtx) (st : IRVState) : Except String IRVStep :=
  let round_number := st.round_number + 1
  match irvCount ctx.activeBallots st.remaining st.eliminated with
  | .error e => .error e
  | .ok (vote_counts, exhausted, active) =>
    match (vote_counts.find? (fun p => 2 * p.2 > (active : Int))).map (·.1) with
    | some w =>
      .ok (.done
        ⟨[w], vote_counts, ctx.total_ballots, ctx.abstentions, false,
          st.rounds ++ [⟨round_number, vote_counts, exhausted, active, [], false⟩],
          exhausted, round_number⟩
        st.calls)
    | none =>
      if vote_counts.length = 0 then
        .ok (.done
          ⟨[], [], ctx.total_ballots, ctx.abstentions, false, st.rounds,
            exhausted, 0⟩
          st.calls)
      else
        let min_votes := minValues vote_counts
        let cwm := (vote_counts.filter (fun p => p.2 = min_votes)).map (·.1)
        let elim : List CandidateId × Bool × Calls :=
          if cwm.length ≥ st.remaining.length then
            let w := ctx.tb st.remaining
            (st.remaining.filter (fun c => c ≠ w), true,
              st.calls ++ [st.remaining])
          else if st.remaining.length - cwm.length ≥ 1 then
            (cwm, false, st.calls)
          else
            ([ctx.tb cwm], true, st.calls ++ [cwm])
        let to_eliminate := elim.1
        let was_tb := elim.2.1
        let calls' := elim.2.2
        let rounds' := st.rounds ++
          [⟨round_number, vote_counts, exhausted, active, to_eliminate, was_tb⟩]
        let eliminated' := st.eliminated ++ to_eliminate
        let remaining' := to_eliminate.foldl (fun r c => r.erase c) st.remaining
        if remaining'.length = 1 then
          match remaining' with
          | [fw] =>
            match irvCount ctx.activeBallots [fw] eliminated' with
            | .error e => .error e
            | .ok (fvc, fex, fact) =>
              .ok (.done
                ⟨[fw], fvc, ctx.total_ballots, ctx.abstentions, was_tb,
                  rounds' ++ [⟨round_number + 1, fvc, fex, fact, [], false⟩],
                  fex, round_number + 1⟩
                calls')
          | _ =>
            .ok (.next ⟨remaining', eliminated', round_number, rounds', calls'⟩)
        else if remaining'.length = 0 then
          .ok (.done
            ⟨[], [], ctx.total_ballots, ctx.abstentions, was_tb, rounds',
              ctx.activeBallots.length, 0⟩
            calls')
        else
          .ok (.next ⟨remaining', eliminated', round_number, rounds', calls'⟩)

def irvLoop (ctx : IRVCtx) : Nat → IRVState →
    Option (Except String (IRVResult × Calls))
  | 0, _ => none
  | fuel + 1, st =>
    match irvStep ctx st with
    | .error e => some (.error e)
    | .ok (.done r calls) => some (.ok (r, calls))
    | .ok (.next st') => irvLoop ctx fuel st'

/-- The fixed loop context of one `resolve_irv` call. -/
def irvContext (candidates : List Candidate)
    (ballots : List RankedChoiceBallot) (tb : TiebreakFunction) : IRVCtx :=
  let active := ballots.filter (fun b => ¬ rc_is_abstention b)
  ⟨active, ballots.length, ballots.length - active.length, tb⟩

/-- The initial loop state of one `resolve_irv` call:
`remaining_candidates = {c.id for c in candidates}`, nothing eliminated. -/
def irvInitState (candidates : List Candidate) : IRVState :=
  ⟨dedupFirst (candidates.map (·.id)), [], 0, [], []⟩

/-- `irv.py` `resolve_irv`. `none` would mean fuel exhaustion; the supplied
fuel is proved sufficient (claim on termination). -/
def resolve_irv (candidates : List Candidate)
    (ballots : List RankedChoiceBallot) (tb : TiebreakFunction) :
    Option (Except String (IRVResult × Calls)) :=
  irvLoop (irvContext candidates ballots tb) (candidates.length + 1)
    (irvInitState candidates)

/-! ## Condorcet / Ranked Pairs (`voting/methods/ranked_pairs.py`)

`random.shuffle` inside `_sort_victories` is the one read of the
process-wide randomness source; it is modelled as the explicit parameter
`shuffle`, one draw per run. All dict subscripts (`matrix[a][b]`,
`graph[winner]`) are embedded with their `KeyError` behaviour. -/

/-- A victory edge `(winner, loser, margin, winning_votes)`. -/
abbrev Victory := CandidateId × CandidateId × Int × Int

/-- A locked or skipped victory `(winner, loser, margin)`. -/
abbrev LockedEdge := CandidateId × CandidateId × Int

abbrev PairwiseMatrix := Dict (Dict Int)

structure RankedPairsResult where
  winners : List CandidateId
  vote_counts : Dict Int
  total_ballots : Nat
  abstentions : Nat
  tiebreak_applied : Bool
  pairwise_matrix : PairwiseMatrix
  had_condorcet_winner : Bool
  locked_victories : List LockedEdge
  skipped_victories : List LockedEdge
deriving DecidableEq, Repr

/-- Python `matrix[a][b]` (raises `KeyError` when absent). -/
def mread (m : PairwiseMatrix) (a b : CandidateId) : Except String Int :=
  match dlookup m a with
  | none => .error "KeyError"
  | some row =>
    match dlookup row b with
    | none => .error "KeyError"
    | some v => .ok v

/-- Python `matrix[a][b] += 1`. -/
def mincr (m : PairwiseMatrix) (a b : CandidateId) :
    Except String PairwiseMatrix :=
  match dlookup m a with
  | none => .error "KeyError"
  | some row =>
    match dlookup row b with
    | none => .error "KeyError"
    | some v => .ok (dinsert m a (dinsert row b (v + 1)))

/-- Ordered pairs `(a, b)` with `a` before `b` in the list, in the
enumeration order of the two nested loops `for i, a in enumerate(ids):
for b in ids[i+1:]`. -/
def pairsAfter {α : Type} : List α → List (α × α)
  | [] => []
  | a :: rest => rest.map (fun b => (a, b)) ++ pairsAfter rest

/-- Inner pair loop of `_build_pairwise_matrix` for one ballot. -/
def tallyBallotPairs (b : RankedChoiceBallot) :
    List (CandidateId × CandidateId) → PairwiseMatrix →
    Except String PairwiseMatrix
  | [], m => .ok m
  | (x, y) :: rest, m =>
    match prefers b x y with
    | some true =>
      match mincr m x y with
      | .error e => .error e
      | .ok m' => tallyBallotPairs b rest m'
    | some false =>
      match mincr m y x with
      | .error e => .error e
      | .ok m' => tallyBallotPairs b rest m'
    | none => tallyBallotPairs b rest m

/-- `ranked_pairs.py` `_build_pairwise_matrix`. -/
def build_pairwise_matrix (candidates : List Candidate)
    (ballots : List RankedChoiceBallot) : Except String PairwiseMatrix :=
  let candidate_ids := candidates.map (·.id)
  let init : PairwiseMatrix :=
    candidate_ids.foldl (fun m a =>
      dinsert m a
        (candidate_ids.foldl (fun r b =>
          if b ≠ a then dinsert r b 0 else r) [])) []
  ballots.foldl (fun st b =>
    match st with
    | .error e => .error e
    | .ok m =>
      if rc_is_abstention b then .ok m
      else tallyBallotPairs b (pairsAfter candidate_ids) m)
    (.ok init)

/-- `ranked_pairs.py` `_get_margin`. -/
def get_margin (m : PairwiseMatrix) (a b : CandidateId) :
    Except String Int :=
  match mread m a b, mread m b a with
  | .ok x, .ok y => .ok (x - y)
  | .error e, _ => .error e
  | _, .error e => .error e

/-- Inner loop of `_find_condorcet_winner`: does `cand` beat every
opponent in `opponents` (skipping itself), with the source's early exit
at the first non-positive margin. -/
def beatsAllLoop (m : PairwiseMatrix) (cand : CandidateId) :
    List CandidateId → Except String Bool
  | [] => .ok true
  | opp :: rest =>
    if opp = cand then beatsAllLoop m cand rest
    else
      match get_margin m cand opp with
      | .error e => .error e
      | .ok mg => if mg ≤ 0 then .ok false else beatsAllLoop m cand rest

/-- `ranked_pairs.py` `_find_condorcet_winner`. -/
def find_condorcet_winner (candidate_ids : List CandidateId)
    (m : PairwiseMatrix) : Except String (Option CandidateId) :=
  let rec go : List CandidateId → Except String (Option CandidateId)
    | [] => .ok none
    | c :: rest =>
      match beatsAllLoop m c candidate_ids with
      | .error e => .error e
      | .ok true => .ok (some c)
      | .ok false => go rest
  go candidate_ids

/-- `ranked_pairs.py` `_get_all_victories` over the ordered pair list. -/
def victoriesLoop (m : PairwiseMatrix) :
    List (CandidateId × CandidateId) → Except String (List Victory)
  | [] => .ok []
  | (a, b) :: rest =>
    match get_margin m a b with
    | .error e => .error e
    | .ok mg =>
      if mg > 0 then
        match mread m a b with
        | .error e => .error e
        | .ok wv =>
          match victoriesLoop m rest with
          | .error e => .error e
          | .ok vs => .ok ((a, b, mg, wv) :: vs)
      else if mg < 0 then
        match mread m b a with
        | .error e => .error e
        | .ok wv =>
          match victoriesLoop m rest with
          | .error e => .error e
          | .ok vs => .ok ((b, a, -mg, wv) :: vs)
      else victoriesLoop m rest

def get_all_victories (candidate_ids : List CandidateId)
    (m : PairwiseMatrix) : Except String (List Victory) :=
  victoriesLoop m (pairsAfter candidate_ids)

/-- Stable insertion (descending by `key`): a later element is placed
after all already-placed elements whose key is ≥ its own, which is
exactly the input/output behaviour of Python's stable `list.sort` with
`reverse=True`. -/
def insertStable (key : Victory → Int) : List Victory → Victory → List Victory
  | [], v => [v]
  | w :: ws, v => if key v > key w then v :: w :: ws else w :: insertStable key ws v

def sortDescBy (key : Victory → Int) (l : List Victory) : List Victory :=
  l.foldl (insertStable key) []

def victoryMargin (v : Victory) : Int := v.2.2.1

def victoryWv (v : Victory) : Int := v.2.2.2

/-- `ranked_pairs.py` `_sort_victories`, applied to the already-shuffled
list: stable sort by winning votes descending, then by margin
descending. -/
def sort_victories (shuffled : List Victory) : List Victory :=
  sortDescBy victoryMargin (sortDescBy victoryWv shuffled)

abbrev BeatsGraph := Dict (List CandidateId)

/-- DFS worklist of `_would_create_cycle`; the Python stack pops from the
list's end, modelled here with the list head as the stack top. `fuel`
strictly exceeds the possible number of iterations (each node's adjacency
list is pushed at most once, after its first visit, so the loop pops at
most 1 + total-edge-count elements); running out of fuel is unreachable
and mapped to `false`. -/
def dfsLoop (g : BeatsGraph) (target : CandidateId) :
    Nat → List CandidateId → List CandidateId → Bool
  | 0, _, _ => false
  | fuel + 1, visited, stack =>
    match stack with
    | [] => false
    | current :: rest =>
      if current = target then true
      else if visited.contains current then dfsLoop g target fuel visited rest
      else
        dfsLoop g target fuel (visited ++ [current])
          (((dlookup g current).getD []).reverse ++ rest)

/-- `ranked_pairs.py` `_would_create_cycle`: is there already a path from
`loser` to `winner`? -/
def would_create_cycle (g : BeatsGraph) (winner loser : CandidateId) : Bool :=
  dfsLoop g winner (2 + g.length + (g.map (fun p => p.2.length)).sum) [] [loser]

/-- Lock/skip walk of `_apply_ranked_pairs` over the sorted victories. -/
def lockLoop : List Victory → BeatsGraph → List LockedEdge → List LockedEdge →
    Except String (BeatsGraph × List LockedEdge × List LockedEdge)
  | [], g, locked, skipped => .ok (g, locked, skipped)
  | (w, l, mg, _) :: rest, g, locked, skipped =>
    if would_create_cycle g w l then
      lockLoop rest g locked (skipped ++ [(w, l, mg)])
    else
      match dlookup g w with
      | none => .error "KeyError"
      | some adj =>
        lockLoop rest (dinsert g w (if adj.contains l then adj else adj ++ [l]))
          (locked ++ [(w, l, mg)]) skipped

/-- `ranked_pairs.py` `_apply_ranked_pairs`. Returns the winner (if a
unique source exists, or the tie-break pick over multiple sources), the
locked and skipped victories, and the tie-break calls made. -/
def apply_ranked_pairs (candidate_ids : List CandidateId)
    (m : PairwiseMatrix) (tb : TiebreakFunction)
    (shuffle : List Victory → List Victory) :
    Except String
      (Option CandidateId × List LockedEdge × List LockedEdge × Calls) :=
  match get_all_victories candidate_ids m with
  | .error e => .error e
  | .ok victories =>
    let sorted := sort_victories (shuffle victories)
    let init : BeatsGraph := candidate_ids.foldl (fun g cid => dinsert g cid []) []
    match lockLoop sorted init [] [] with
    | .error e => .error e
    | .ok (g, locked, skipped) =>
      let has_incoming : List CandidateId :=
        g.foldl (fun acc p =>
          p.2.foldl (fun a c => if a.contains c then a else a ++ [c]) acc) []
      let sources := candidate_ids.filter (fun cid => ¬ has_incoming.contains cid)
      match sources with
      | [s] => .ok (some s, locked, skipped, [])
      | [] => .ok (none, locked, skipped, [])
      | ss => .ok (some (tb ss), locked, skipped, [ss])

/-- Pairwise-win counts reported as `vote_counts` by the Condorcet and
Ranked-Pairs paths. -/
def countWins (m : PairwiseMatrix) (cid : CandidateId) :
    List CandidateId → Except String Int
  | [] => .ok 0
  | opp :: rest =>
    if opp = cid then countWins m cid rest
    else
      match get_margin m cid opp with
      | .error e => .error e
      | .ok mg =>
        match countWins m cid rest with
        | .error e => .error e
        | .ok n => .ok ((if mg > 0 then 1 else 0) + n)

def winCounts (candidate_ids : List CandidateId) (m : PairwiseMatrix) :
    Except String (Dict Int) :=
  let rec go : List CandidateId → Dict Int → Except String (Dict Int)
    | [], acc => .ok acc
    | cid :: rest, acc =>
      match countWins m cid candidate_ids with
      | .error e => .error e
      | .ok n => go rest (dinsert acc cid n)
  go candidate_ids []

/-- The matrix actually used by `resolve_ranked_pairs`:
`matrix = pairwise_matrix or _build_pairwise_matrix(candidates, ballots)`
uses a supplied matrix only when it is truthy (non-`None` and non-empty). -/
def matrixFor (candidates : List Candidate) (ballots : List RankedChoiceBallot)
    (pairwise_matrix : Option PairwiseMatrix) : Except String PairwiseMatrix :=
  match pairwise_matrix with
  | some m =>
    if m.length ≠ 0 then .ok m else build_pairwise_matrix candidates ballots
  | none => build_pairwise_matrix candidates ballots

/-- The Ranked-Pairs completion path of `resolve_ranked_pairs` (taken
when no Condorcet winner exists): apply the locking walk, compute the
pairwise-win counts, and assemble the result with
`tiebreak_applied = (winner is None) or len(skipped) > 0`, falling back
to a tie-break over the full candidate list when no source existed. -/
def rpCompletion (candidate_ids : List CandidateId) (matrix : PairwiseMatrix)
    (tb : TiebreakFunction) (shuffle : List Victory → List Victory)
    (total_ballots abstentions : Nat) (include_pairwise_matrix : Bool) :
    Except String (RankedPairsResult × Calls) :=
  match apply_ranked_pairs candidate_ids matrix tb shuffle with
  | .error e => .error e
  | .ok (winner?, locked, skipped, calls0) =>
    match winCounts candidate_ids matrix with
    | .error e => .error e
    | .ok vote_counts =>
      let ta := winner?.isNone || ¬ skipped.isEmpty
      match winner? with
      | none =>
        .ok (⟨[tb candidate_ids], vote_counts, total_ballots, abstentions,
            true, (if include_pairwise_matrix then matrix else []), false,
            locked, skipped⟩, calls0 ++ [candidate_ids])
      | some w =>
        .ok (⟨[w], vote_counts, total_ballots, abstentions, ta,
            (if include_pairwise_matrix then matrix else []), false,
            locked, skipped⟩, calls0)

/-- `ranked_pairs.py` `resolve_ranked_pairs`.

The Python default arguments correspond to `pairwise_matrix = none`,
`include_pairwise_matrix = true`. -/
def resolve_ranked_pairs (candidates : List Candidate)
    (ballots : List RankedChoiceBallot) (tb : TiebreakFunction)
    (pairwise_matrix : Option PairwiseMatrix)
    (include_pairwise_matrix : Bool)
    (shuffle : List Victory → List Victory) :
    Except String (RankedPairsResult × Calls) :=
  let candidate_ids := candidates.map (·.id)
  let abstentions := (ballots.filter (fun b => rc_is_abstention b)).length
  if h0 : candidates.length = 0 then
    .ok (⟨[], [], ballots.length, abstentions, false, [], false, [], []⟩, [])
  else if h1 : candidates.length = 1 then
    let c0 := candidates.head (by intro h; rw [h] at h1; simp at h1)
    .ok (⟨[c0.id],
        [(c0.id, ((ballots.filter (fun b => ¬ rc_is_abstention b)).length : Int))],
        ballots.length, abstentions, false, [(c0.id, [])], true, [], []⟩, [])
  else
    match matrixFor candidates ballots pairwise_matrix with
    | .error e => .error e
    | .ok matrix =>
      match find_condorcet_winner candidate_ids matrix with
      | .error e => .error e
      | .ok (some cw) =>
        match winCounts candidate_ids matrix with
        | .error e => .error e
        | .ok vote_counts =>
          .ok (⟨[cw], vote_counts, ballots.length, abstentions, false,
              (if include_pairwise_matrix then matrix else []), true, [], []⟩, [])
      | .ok none =>
        rpCompletion candidate_ids matrix tb shuffle ballots.length
          abstentions include_pairwise_matrix

/-! ## Helper lemmas about the dict/set model -/

theorem dinsert_ne_nil {α : Type} (d : Dict α) (k : CandidateId) (v : α) :
    dinsert d k v ≠ [] := by
  cases d with
  | nil => simp [dinsert]
  | cons p rest =>
    obtain ⟨k', v'⟩ := p
    simp only [dinsert]
    split <;> simp

theorem foldl_dinsert_ne_nil {α : Type} (v0 : α) :
    ∀ (l : List CandidateId) (d : Dict α), d ≠ [] ∨ l ≠ [] →
      l.foldl (fun d k => dinsert d k v0) d ≠ []
  | [], d, h => by
    rcases h with h | h
    · simpa using h
    · simp at h
  | k :: ks, d, _ => by
    simp only [List.foldl_cons]
    exact foldl_dinsert_ne_nil v0 ks (dinsert d k v0) (Or.inl (dinsert_ne_nil d k v0))

theorem mem_dkeys_iff_lookup {α : Type} (d : Dict α) (k : CandidateId) :
    k ∈ dkeys d ↔ (dlookup d k).isSome := by
  induction d with
  | nil => simp [dkeys, dlookup]
  | cons p rest ih =>
    obtain ⟨k', v'⟩ := p
    simp only [dkeys, List.map_cons, List.mem_cons, dlookup]
    constructor
    · rintro (rfl | h)
      · simp
      · split
        · simp
        · exact ih.mp h
    · intro h
      by_cases hk : k' = k
      · exact Or.inl hk.symm
      · simp only [hk, if_false] at h
        exact Or.inr (ih.mpr h)

theorem dinsert_append_of_not_mem {α : Type} (d : Dict α) (k : CandidateId)
    (v : α) (h : k ∉ dkeys d) : dinsert d k v = d ++ [(k, v)] := by
  induction d with
  | nil => simp [dinsert]
  | cons p rest ih =>
    obtain ⟨k', v'⟩ := p
    simp only [dkeys, List.map_cons, List.mem_cons, not_or] at h
    simp only [dinsert, List.cons_append]
    rw [if_neg (fun hh => h.1 hh.symm), ih h.2]

theorem dkeys_dinsert {α : Type} (d : Dict α) (k : CandidateId) (v : α) :
    dkeys (dinsert d k v) = if k ∈ dkeys d then dkeys d else dkeys d ++ [k] := by
  induction d with
  | nil => simp [dinsert, dkeys]
  | cons p rest ih =>
    obtain ⟨k', v'⟩ := p
    simp only [dinsert, dkeys, List.map_cons] at ih ⊢
    by_cases hk : k' = k
    · subst hk
      simp
    · rw [if_neg hk]
      simp only [List.map_cons, List.mem_cons]
      by_cases hm : k ∈ List.map Prod.fst rest
      · rw [ih, if_pos hm, if_pos (Or.inr hm)]
      · have hne : ¬ (k = k' ∨ k ∈ List.map Prod.fst rest) := by
          rintro (rfl | h)
          · exact hk rfl
          · exact hm h
        rw [ih, if_neg hm, if_neg hne, List.cons_append]

theorem daddAt_keys (d : Dict Int) (k : CandidateId) (x : Int) :
    dkeys (daddAt d k x) = dkeys d := by
  induction d with
  | nil => simp [daddAt]
  | cons p rest ih =>
    obtain ⟨k', v'⟩ := p
    simp only [daddAt, dkeys, List.map_cons]
    split <;> simp_all [dkeys]

theorem daddAt_length (d : Dict Int) (k : CandidateId) (x : Int) :
    (daddAt d k x).length = d.length := by
  have h := daddAt_keys d k x
  have h1 : (dkeys (daddAt d k x)).length = (dkeys d).length := by rw [h]
  simpa [dkeys] using h1

theorem dincr?_keys (d : Dict Int) (k : CandidateId) (d' : Dict Int)
    (h : dincr? d k = some d') : dkeys d' = dkeys d := by
  induction d generalizing d' with
  | nil => simp [dincr?] at h
  | cons p rest ih =>
    obtain ⟨k', v'⟩ := p
    simp only [dincr?] at h
    split at h
    · cases h
      simp [dkeys]
    · cases hrec : dincr? rest k with
      | none => simp [hrec] at h
      | some rest' =>
        simp only [hrec, Option.map_some'] at h
        cases h
        simp only [dkeys, List.map_cons]
        have := ih rest' hrec
        simp only [dkeys] at this
        rw [this]

theorem dlookup_map_const {α : Type} (v0 : α) (l : List CandidateId)
    (c : CandidateId) :
    dlookup (l.map (fun k => (k, v0))) c = if c ∈ l then some v0 else none := by
  induction l with
  | nil => simp [dlookup]
  | cons k ks ih =>
    simp only [List.map_cons, dlookup, List.mem_cons]
    by_cases hk : k = c
    · subst hk; simp
    · rw [if_neg hk, ih]
      by_cases hm : c ∈ ks
      · simp [hm]
      · have hne : ¬ (c = k ∨ c ∈ ks) := by
          rintro (rfl | h)
          · exact hk rfl
          · exact hm h
        rw [if_neg hm, if_neg hne]

theorem foldl_dinsert_eq_map {α : Type} (v0 : α) :
    ∀ (l : List CandidateId) (d : Dict α), l.Nodup →
      (∀ k ∈ l, k ∉ dkeys d) →
      l.foldl (fun d k => dinsert d k v0) d = d ++ l.map (fun k => (k, v0))
  | [], d, _, _ => by simp
  | k :: ks, d, hnd, hdisj => by
    simp only [List.foldl_cons, List.map_cons]
    rw [dinsert_append_of_not_mem d k v0 (hdisj k (by simp))]
    rw [foldl_dinsert_eq_map v0 ks (d ++ [(k, v0)]) (List.Nodup.of_cons hnd) ?_]
    · simp
    · intro k' hk'
      simp only [dkeys, List.map_append, List.mem_append, List.map_cons,
        List.map_nil, List.mem_singleton, not_or]
      refine ⟨hdisj k' (by simp [hk']), ?_⟩
      intro hkk
      subst hkk
      exact (List.nodup_cons.mp hnd).1 hk'

theorem foldlMax_cases :
    ∀ (l : List (CandidateId × Int)) (a : Int),
      l.foldl (fun m p => max m p.2) a = a ∨
        l.foldl (fun m p => max m p.2) a ∈ l.map (·.2)
  | [], a => Or.inl rfl
  | p :: rest, a => by
    simp only [List.foldl_cons, List.map_cons, List.mem_cons]
    rcases foldlMax_cases rest (max a p.2) with h | h
    · rw [h]
      rcases max_choice a p.2 with h' | h'
      · exact Or.inl h'
      · exact Or.inr (Or.inl h')
    · exact Or.inr (Or.inr h)

theorem foldlMax_ge_init :
    ∀ (l : List (CandidateId × Int)) (a : Int),
      a ≤ l.foldl (fun m p => max m p.2) a
  | [], _ => le_refl _
  | p :: rest, a => by
    simp only [List.foldl_cons]
    exact le_trans (le_max_left a p.2) (foldlMax_ge_init rest (max a p.2))

theorem foldlMax_ge_mem :
    ∀ (l : List (CandidateId × Int)) (a : Int) (p : CandidateId × Int),
      p ∈ l → p.2 ≤ l.foldl (fun m p => max m p.2) a
  | [], _, _, h => by simp at h
  | q :: rest, a, p, h => by
    simp only [List.mem_cons] at h
    simp only [List.foldl_cons]
    rcases h with rfl | h
    · exact le_trans (le_max_right a p.2) (foldlMax_ge_init rest _)
    · exact foldlMax_ge_mem rest _ p h

theorem maxValues_mem (d : Dict Int) (h : d ≠ []) :
    maxValues d ∈ dvalues d := by
  cases d with
  | nil => exact absurd rfl h
  | cons p rest =>
    obtain ⟨k, v⟩ := p
    simp only [maxValues, dvalues, List.map_cons, List.mem_cons]
    rcases foldlMax_cases rest v with h' | h'
    · exact Or.inl h'
    · exact Or.inr h'

theorem maxValues_ge (d : Dict Int) (p : CandidateId × Int) (h : p ∈ d) :
    p.2 ≤ maxValues d := by
  cases d with
  | nil => simp at h
  | cons q rest =>
    obtain ⟨k, v⟩ := q
    simp only [List.mem_cons] at h
    simp only [maxValues]
    rcases h with rfl | h
    · exact foldlMax_ge_init rest _
    · exact foldlMax_ge_mem rest v p h

theorem foldlMin_cases :
    ∀ (l : List (CandidateId × Int)) (a : Int),
      l.foldl (fun m p => min m p.2) a = a ∨
        l.foldl (fun m p => min m p.2) a ∈ l.map (·.2)
  | [], a => Or.inl rfl
  | p :: rest, a => by
    simp only [List.foldl_cons, List.map_cons, List.mem_cons]
    rcases foldlMin_cases rest (min a p.2) with h | h
    · rw [h]
      rcases min_choice a p.2 with h' | h'
      · exact Or.inl h'
      · exact Or.inr (Or.inl h')
    · exact Or.inr (Or.inr h)

theorem minValues_mem (d : Dict Int) (h : d ≠ []) :
    minValues d ∈ dvalues d := by
  cases d with
  | nil => exact absurd rfl h
  | cons p rest =>
    obtain ⟨k, v⟩ := p
    simp only [minValues, dvalues, List.map_cons, List.mem_cons]
    rcases foldlMin_cases rest v with h' | h'
    · exact Or.inl h'
    · exact Or.inr h'

theorem exists_of_mem_dvalues {α : Type} (d : Dict α) (v : α)
    (h : v ∈ dvalues d) : ∃ p, p ∈ d ∧ p.2 = v := by
  simp only [dvalues, List.mem_map] at h
  obtain ⟨p, hp, hv⟩ := h
  exact ⟨p, hp, hv⟩

theorem tiedMax_ne_nil (d : Dict Int) (h : d ≠ []) :
    (d.filter (fun p => p.2 = maxValues d)).map (·.1) ≠ [] := by
  obtain ⟨p, hp, hv⟩ := exists_of_mem_dvalues d (maxValues d) (maxValues_mem d h)
  have : p ∈ d.filter (fun p => p.2 = maxValues d) := by
    simp [List.mem_filter, hp, hv]
  intro hnil
  rw [List.map_eq_nil_iff] at hnil
  rw [hnil] at this
  simp at this

theorem tiedMin_ne_nil (d : Dict Int) (h : d ≠ []) :
    (d.filter (fun p => p.2 = minValues d)).map (·.1) ≠ [] := by
  obtain ⟨p, hp, hv⟩ := exists_of_mem_dvalues d (minValues d) (minValues_mem d h)
  have : p ∈ d.filter (fun p => p.2 = minValues d) := by
    simp [List.mem_filter, hp, hv]
  intro hnil
  rw [List.map_eq_nil_iff] at hnil
  rw [hnil] at this
  simp at this

theorem dlookup_of_mem_nodup {α : Type} (d : Dict α) (p : CandidateId × α)
    (hnd : (dkeys d).Nodup) (hp : p ∈ d) : dlookup d p.1 = some p.2 := by
  induction d with
  | nil => simp at hp
  | cons q rest ih =>
    obtain ⟨k', v'⟩ := q
    simp only [List.mem_cons] at hp
    simp only [dkeys, List.map_cons, List.nodup_cons] at hnd
    simp only [dlookup]
    rcases hp with rfl | hp
    · simp
    · rw [if_neg ?_]
      · exact ih hnd.2 hp
      · intro hkk
        exact hnd.1 (by rw [hkk]; exact List.mem_map_of_mem Prod.fst hp)

/-! ### Lemmas about the set model `dedupFirst` -/

theorem dedupFoldl_mem (a : CandidateId) :
    ∀ (l : List CandidateId) (acc : List CandidateId),
      a ∈ l.foldl (fun acc x => if acc.contains x then acc else acc ++ [x]) acc ↔
        a ∈ acc ∨ a ∈ l
  | [], acc => by simp
  | x :: xs, acc => by
    simp only [List.foldl_cons, List.mem_cons]
    rw [dedupFoldl_mem a xs]
    by_cases hc : acc.contains x
    · rw [if_pos hc]
      have hx : x ∈ acc := by
        have := List.contains_iff_exists_mem_beq.mp hc
        obtain ⟨y, hy, hbeq⟩ := this
        rwa [show x = y from by simpa using hbeq]
      constructor
      · rintro (h | h)
        · exact Or.inl h
        · exact Or.inr (Or.inr h)
      · rintro (h | rfl | h)
        · exact Or.inl h
        · exact Or.inl hx
        · exact Or.inr h
    · rw [if_neg hc]
      simp only [List.mem_append, List.mem_singleton]
      tauto

theorem mem_dedupFirst (a : CandidateId) (l : List CandidateId) :
    a ∈ dedupFirst l ↔ a ∈ l := by
  unfold dedupFirst
  rw [dedupFoldl_mem]
  simp

theorem dedupFoldl_nodup :
    ∀ (l : List CandidateId) (acc : List CandidateId), acc.Nodup →
      (l.foldl (fun acc x => if acc.contains x then acc else acc ++ [x]) acc).Nodup
  | [], _, h => h
  | x :: xs, acc, h => by
    simp only [List.foldl_cons]
    by_cases hc : acc.contains x
    · rw [if_pos hc]
      exact dedupFoldl_nodup xs acc h
    · rw [if_neg hc]
      refine dedupFoldl_nodup xs _ ?_
      rw [List.nodup_append]
      refine ⟨h, List.nodup_singleton x, ?_⟩
      intro y hy
      simp only [List.mem_singleton]
      intro hyx
      subst hyx
      exact hc (List.contains_iff_exists_mem_beq.mpr ⟨y, hy, by simp⟩)

theorem dedupFirst_nodup (l : List CandidateId) : (dedupFirst l).Nodup :=
  dedupFoldl_nodup l [] List.nodup_nil

theorem dedupFoldl_sublist :
    ∀ (l : List CandidateId) (acc : List CandidateId),
      ∃ r, l.foldl (fun acc x => if acc.contains x then acc else acc ++ [x]) acc =
          acc ++ r ∧ List.Sublist r l
  | [], acc => ⟨[], by simp, List.nil_sublist []⟩
  | x :: xs, acc => by
    simp only [List.foldl_cons]
    by_cases hc : acc.contains x
    · rw [if_pos hc]
      obtain ⟨r, hr, hs⟩ := dedupFoldl_sublist xs acc
      exact ⟨r, hr, hs.cons x⟩
    · rw [if_neg hc]
      obtain ⟨r, hr, hs⟩ := dedupFoldl_sublist xs (acc ++ [x])
      refine ⟨x :: r, ?_, hs.cons₂ x⟩
      rw [hr, List.append_assoc]
      rfl

theorem dedupFirst_sublist (l : List CandidateId) :
    List.Sublist (dedupFirst l) l := by
  obtain ⟨r, hr, hs⟩ := dedupFoldl_sublist l []
  unfold dedupFirst
  rw [hr]
  simpa using hs

theorem nodup_of_dedupFirst_length (l : List CandidateId)
    (h : l.length = (dedupFirst l).length) : l.Nodup := by
  have heq : dedupFirst l = l := (dedupFirst_sublist l).eq_of_length h.symm
  rw [← heq]
  exact dedupFirst_nodup l

theorem dedupFoldl_eq_append :
    ∀ (l : List CandidateId) (acc : List CandidateId), l.Nodup →
      (∀ x ∈ l, x ∉ acc) →
      l.foldl (fun acc x => if acc.contains x then acc else acc ++ [x]) acc =
        acc ++ l
  | [], acc, _, _ => by simp
  | x :: xs, acc, hnd, hdisj => by
    simp only [List.foldl_cons]
    have hc : ¬ acc.contains x := by
      intro hc
      obtain ⟨y, hy, hbeq⟩ := List.contains_iff_exists_mem_beq.mp hc
      exact hdisj x (by simp) (by rwa [show x = y from by simpa using hbeq])
    rw [if_neg hc]
    rw [dedupFoldl_eq_append xs (acc ++ [x]) (List.Nodup.of_cons hnd) ?_]
    · simp
    · intro y hy
      simp only [List.mem_append, List.mem_singleton, not_or]
      refine ⟨hdisj y (by simp [hy]), ?_⟩
      intro hyx
      subst hyx
      exact (List.nodup_cons.mp hnd).1 hy

theorem dedupFirst_eq_self_of_nodup (l : List CandidateId) (h : l.Nodup) :
    dedupFirst l = l := by
  unfold dedupFirst
  rw [dedupFoldl_eq_append l [] h (by simp)]
  simp

/-! ## Tie-break reporting -/

/-- The tie-break function returns a member of any non-empty argument. -/
def TBOk (tb : TiebreakFunction) : Prop := ∀ l, l ≠ [] → tb l ∈ l

/-- The candidates attaining the deciding maximum of a tally, in tally
order: the `tied` list comprehension shared by the resolvers. -/
def tiedAtMax (d : Dict Int) : List CandidateId :=
  (d.filter (fun p => p.2 = maxValues d)).map (·.1)

/-- The reporting contract of §4.2 for one resolution output whose winner
is decided by the maximum of the tally `d`: when at least two candidates
attain the maximum of `d`, the tie-break is invoked exactly once, on
exactly the list of candidates attaining the maximum, the flag is true,
and the winner is the tie-break's pick from that list; when at most one
candidate attains the maximum, the tie-break is not invoked and the flag
is false. -/
def GoodReportOn (tb : TiebreakFunction) (d : Dict Int)
    (winners : List CandidateId) (applied : Bool) (calls : Calls) : Prop :=
  (2 ≤ (tiedAtMax d).length →
    applied = true ∧ calls = [tiedAtMax d] ∧
      winners = [tb (tiedAtMax d)] ∧ tb (tiedAtMax d) ∈ tiedAtMax d) ∧
  ((tiedAtMax d).length < 2 → applied = false ∧ calls = [])

theorem selectWinnerStd_reportOn (d : Dict Int) (tb : TiebreakFunction)
    (htb : TBOk tb) :
    GoodReportOn tb d (selectWinnerStd d tb).1 (selectWinnerStd d tb).2.1
      (selectWinnerStd d tb).2.2 := by
  have hsel : selectWinnerStd d tb =
      if (tiedAtMax d).length = 0 then ([], false, [])
      else if (tiedAtMax d).length = 1 then (tiedAtMax d, false, [])
      else ([tb (tiedAtMax d)], true, [tiedAtMax d]) := rfl
  unfold GoodReportOn
  rw [hsel]
  by_cases h0 : (tiedAtMax d).length = 0
  · rw [if_pos h0]
    exact ⟨fun h2 => absurd h2 (by omega), fun _ => ⟨rfl, rfl⟩⟩
  · rw [if_neg h0]
    by_cases h1 : (tiedAtMax d).length = 1
    · rw [if_pos h1]
      exact ⟨fun h2 => absurd h2 (by omega), fun _ => ⟨rfl, rfl⟩⟩
    · rw [if_neg h1]
      have hne : tiedAtMax d ≠ [] := by
        intro hnil
        rw [hnil] at h0
        exact h0 rfl
      exact ⟨fun _ => ⟨rfl, rfl, rfl, htb _ hne⟩,
        fun hlt => absurd hlt (by omega)⟩

/-- The number of vote allocations counted toward recognized candidates
over a quadratic election: the `counted_vote_allocations` accumulator of
`resolve_quadratic` after its ballot loop. -/
def qCounted (candidates : List Candidate)
    (ballots : List QuadraticBallot) : Nat :=
  let candidate_ids := dedupFirst (candidates.map (·.id))
  let init : Dict Int := candidate_ids.foldl (fun d cid => dinsert d cid 0) []
  (ballots.foldl (qStepBallot candidate_ids)
    ⟨init, 0, 0, 0, [], 0⟩).counted_vote_allocations

/-! ## Quadratic fold bookkeeping lemmas -/

theorem qTallyBallot_totals_length (ids : List CandidateId) :
    ∀ (allocs : Dict Int) (st : Dict Int × Nat × Int),
      (qTallyBallot ids st allocs).1.length = st.1.length
  | [], _ => rfl
  | p :: rest, st => by
    simp only [qTallyBallot, List.foldl_cons] at *
    by_cases h : ids.contains p.1
    · rw [if_pos h]
      have := qTallyBallot_totals_length ids rest
        (daddAt st.1 p.1 p.2, st.2.1 + 1, st.2.2 + p.2 * p.2)
      simp only [qTallyBallot] at this
      rw [this, daddAt_length]
    · rw [if_neg h]
      have := qTallyBallot_totals_length ids rest st
      simpa [qTallyBallot] using this

theorem qStepBallot_totals_length (ids : List CandidateId)
    (st : QState) (b : QuadraticBallot) :
    (qStepBallot ids st b).vote_totals.length = st.vote_totals.length := by
  unfold qStepBallot
  by_cases h : qb_is_abstention b
  · rw [if_pos h]
  · rw [if_neg h]
    exact qTallyBallot_totals_length ids b.allocations (st.vote_totals, 0, 0)

theorem qFold_totals_length (ids : List CandidateId) :
    ∀ (ballots : List QuadraticBallot) (st : QState),
      (ballots.foldl (qStepBallot ids) st).vote_totals.length =
        st.vote_totals.length
  | [], _ => rfl
  | b :: rest, st => by
    simp only [List.foldl_cons]
    rw [qFold_totals_length ids rest (qStepBallot ids st b),
      qStepBallot_totals_length]

theorem qTallyBallot_nil_ids :
    ∀ (allocs : Dict Int) (st : Dict Int × Nat × Int),
      qTallyBallot [] st allocs = st
  | [], _ => rfl
  | p :: rest, st => by
    simp only [qTallyBallot, List.foldl_cons, List.contains_nil, if_false] at *
    exact qTallyBallot_nil_ids rest st

theorem qStepBallot_nil_ids (st : QState) (b : QuadraticBallot) :
    (qStepBallot [] st b).counted_vote_allocations =
      st.counted_vote_allocations := by
  unfold qStepBallot
  by_cases h : qb_is_abstention b
  · rw [if_pos h]
  · rw [if_neg h]
    show st.counted_vote_allocations +
        (qTallyBallot [] (st.vote_totals, 0, 0) b.allocations).2.1 =
      st.counted_vote_allocations
    rw [qTallyBallot_nil_ids]
    rfl

theorem qFold_nil_ids_counted :
    ∀ (ballots : List QuadraticBallot) (st : QState),
      (ballots.foldl (qStepBallot []) st).counted_vote_allocations =
        st.counted_vote_allocations
  | [], _ => rfl
  | b :: rest, st => by
    simp only [List.foldl_cons]
    rw [qFold_nil_ids_counted rest (qStepBallot [] st b), qStepBallot_nil_ids]

/-- Default tie-break stub used in the concrete scenarios: first element. -/
def tbHead : TiebreakFunction := fun l => l.headD ""

theorem tbHead_ok : TBOk tbHead := by
  intro l hl
  cases l with
  | nil => exact absurd rfl hl
  | cons x xs => simp [tbHead]

/-- C2 (amended, tie-break invocation reporting for the single-pass
methods): for plurality, approval, score and Borda resolution, for every
candidate list, ballot list, and tie-break function that returns a member
of its argument, the tie-break function is invoked iff at least two
candidates attain the maximum of the returned vote counts; it is then
invoked exactly once, on exactly the list of candidates attaining that
maximum, `tiebreak_applied` is true, and the returned winner is the
tie-break's pick from that list; when at most one candidate attains the
maximum it is not invoked and the flag is false. Quadratic resolution
satisfies the same contract over its net vote totals whenever at least
one allocation to a recognized candidate was counted; when none was
counted it returns no winner, does not invoke the tie-break, and reports
false. (IRV and Ranked-Pairs do not satisfy the invocation-reporting
equivalence; see the counterexample.) -/
theorem tiebreak_reporting_single_pass (candidates : List Candidate)
    (bs1 : List SingleChoiceBallot) (bs2 : List ApprovalBallot)
    (bs3 : List ScoreBallot) (bs4 : List RankedChoiceBallot)
    (bs5 : List QuadraticBallot) (tb : TiebreakFunction) (htb : TBOk tb) :
    GoodReportOn tb (resolve_plurality candidates bs1 tb).1.vote_counts
        (resolve_plurality candidates bs1 tb).1.winners
        (resolve_plurality candidates bs1 tb).1.tiebreak_applied
        (resolve_plurality candidates bs1 tb).2 ∧
    GoodReportOn tb (resolve_approval candidates bs2 tb).1.vote_counts
        (resolve_approval candidates bs2 tb).1.winners
        (resolve_approval candidates bs2 tb).1.tiebreak_applied
        (resolve_approval candidates bs2 tb).2 ∧
    GoodReportOn tb (resolve_score candidates bs3 tb).1.vote_counts
        (resolve_score candidates bs3 tb).1.winners
        (resolve_score candidates bs3 tb).1.tiebreak_applied
        (resolve_score candidates bs3 tb).2 ∧
    GoodReportOn tb (resolve_borda candidates bs4 tb).1.vote_counts
        (resolve_borda candidates bs4 tb).1.winners
        (resolve_borda candidates bs4 tb).1.tiebreak_applied
        (resolve_borda candidates bs4 tb).2 ∧
    (qCounted candidates bs5 = 0 →
      (resolve_quadratic candidates bs5 tb).1.winners = [] ∧
      (resolve_quadratic candidates bs5 tb).1.tiebreak_applied = false ∧
      (resolve_quadratic candidates bs5 tb).2 = []) ∧
    (qCounted candidates bs5 ≠ 0 →
      GoodReportOn tb (resolve_quadratic candidates bs5 tb).1.vote_totals
        (resolve_quadratic candidates bs5 tb).1.winners
        (resolve_quadratic candidates bs5 tb).1.tiebreak_applied
        (resolve_quadratic candidates bs5 tb).2) := by
  refine ⟨?_, ?_, ?_, ?_, ?_, ?_⟩
  · simp only [resolve_plurality]
    exact selectWinnerStd_reportOn _ tb htb
  · simp only [resolve_approval]
    exact selectWinnerStd_reportOn _ tb htb
  · simp only [resolve_score]
    exact selectWinnerStd_reportOn _ tb htb
  · simp only [resolve_borda]
    exact selectWinnerStd_reportOn _ tb htb
  · intro hc
    simp only [resolve_quadratic]
    set ids := dedupFirst (candidates.map (·.id)) with hids
    set init : Dict Int := ids.foldl (fun d cid => dinsert d cid 0) [] with hinit
    set st := bs5.foldl (qStepBallot ids) ⟨init, 0, 0, 0, [], 0⟩ with hst
    have hc' : st.counted_vote_allocations = 0 := hc
    rw [if_pos hc']
    exact ⟨rfl, rfl, rfl⟩
  · intro hc
    simp only [resolve_quadratic]
    set ids := dedupFirst (candidates.map (·.id)) with hids
    set init : Dict Int := ids.foldl (fun d cid => dinsert d cid 0) [] with hinit
    set st := bs5.foldl (qStepBallot ids) ⟨init, 0, 0, 0, [], 0⟩ with hst
    have hc' : ¬ st.counted_vote_allocations = 0 := hc
    rw [if_neg hc']
    have hidsne : ids ≠ [] := by
      intro hnil
      apply hc'
      rw [hst, hnil]
      exact qFold_nil_ids_counted bs5 _
    have hinitne : init ≠ [] := by
      rw [hinit]
      exact foldl_dinsert_ne_nil 0 ids [] (Or.inr hidsne)
    have htotne : st.vote_totals ≠ [] := by
      intro hnil
      have hlen := qFold_totals_length ids bs5 ⟨init, 0, 0, 0, [], 0⟩
      rw [← hst, hnil] at hlen
      exact hinitne (List.eq_nil_of_length_eq_zero hlen.symm)
    set tied := (st.vote_totals.filter
      (fun p => p.2 = maxValues st.vote_totals)).map (·.1) with htied
    have htiedne : tied ≠ [] := tiedMax_ne_nil st.vote_totals htotne
    have htam : tiedAtMax st.vote_totals = tied := htied.symm
    unfold GoodReportOn
    rw [htam]
    constructor
    · intro h2
      rw [if_neg (show ¬ tied.length = 1 by omega)]
      exact ⟨rfl, rfl, rfl, htb tied htiedne⟩
    · intro hlt
      have h1 : tied.length = 1 := by
        have h0 : tied.length ≠ 0 := by
          intro h0
          exact htiedne (List.eq_nil_of_length_eq_zero h0)
        omega
      rw [if_pos h1]
      exact ⟨rfl, rfl⟩

/-- Concrete two-candidate election whose ballots cancel pairwise. -/
def candsAB : List Candidate := [⟨"a", "A"⟩, ⟨"b", "B"⟩]

/-- A ranked-choice ballot with its derived lookup, as the validated
constructor builds it. -/
def rcBallot (v : VoterId) (r : List CandidateId) : RankedChoiceBallot :=
  ⟨v, r, r.enum.map (fun p => (p.2, p.1 + 1))⟩

def tieBallots : List RankedChoiceBallot :=
  [rcBallot "v1" ["a", "b"], rcBallot "v2" ["b", "a"]]

/-- C2 (counterexample): on a two-candidate election whose single ballots
cancel (no pairwise victories), `resolve_ranked_pairs` invokes the
tie-break function — its call log is `[["a", "b"]]` — yet reports
`tiebreak_applied = false`, because the flag is computed from
`winner is None or len(skipped) > 0`, not from invocation. This refutes
the claim that, for every resolution method, `tiebreak_applied = true`
iff the tie-break function was invoked. -/
theorem rp_tiebreak_flag_not_invocation :
    (resolve_ranked_pairs candsAB tieBallots tbHead none true id).toOption.map
      (fun p => (p.1.tiebreak_applied, p.2)) = some (false, [["a", "b"]]) := by
  rfl

/-- C2 witness: the amended theorem applied at a concrete two-candidate
election with no ballots, whose all-zero tallies put both candidates at
the maximum, exercising the invocation branch of the contract. -/
theorem tiebreak_reporting_single_pass_witness :
    GoodReportOn tbHead (resolve_plurality candsAB [] tbHead).1.vote_counts
        (resolve_plurality candsAB [] tbHead).1.winners
        (resolve_plurality candsAB [] tbHead).1.tiebreak_applied
        (resolve_plurality candsAB [] tbHead).2 ∧
    GoodReportOn tbHead (resolve_approval candsAB [] tbHead).1.vote_counts
        (resolve_approval candsAB [] tbHead).1.winners
        (resolve_approval candsAB [] tbHead).1.tiebreak_applied
        (resolve_approval candsAB [] tbHead).2 ∧
    GoodReportOn tbHead (resolve_score candsAB [] tbHead).1.vote_counts
        (resolve_score candsAB [] tbHead).1.winners
        (resolve_score candsAB [] tbHead).1.tiebreak_applied
        (resolve_score candsAB [] tbHead).2 ∧
    GoodReportOn tbHead (resolve_borda candsAB [] tbHead).1.vote_counts
        (resolve_borda candsAB [] tbHead).1.winners
        (resolve_borda candsAB [] tbHead).1.tiebreak_applied
        (resolve_borda candsAB [] tbHead).2 ∧
    (qCounted candsAB [] = 0 →
      (resolve_quadratic candsAB [] tbHead).1.winners = [] ∧
      (resolve_quadratic candsAB [] tbHead).1.tiebreak_applied = false ∧
      (resolve_quadratic candsAB [] tbHead).2 = []) ∧
    (qCounted candsAB [] ≠ 0 →
      GoodReportOn tbHead (resolve_quadratic candsAB [] tbHead).1.vote_totals
        (resolve_quadratic candsAB [] tbHead).1.winners
        (resolve_quadratic candsAB [] tbHead).1.tiebreak_applied
        (resolve_quadratic candsAB [] tbHead).2) :=
  tiebreak_reporting_single_pass candsAB [] [] [] [] [] tbHead tbHead_ok

/-! ## IRV scenarios (claims on `resolve_irv` behaviour) -/

def candsABC : List Candidate := [⟨"a", "A"⟩, ⟨"b", "B"⟩, ⟨"c", "C"⟩]

/-- The ballot multiset exactly as the claim states it:
`[A,B,C]×2, [A,C,B]×1, [B,A,C]×1, [B,C,A]×1, [C,B,A]×1`. -/
def irvClaimedBallots : List RankedChoiceBallot :=
  [rcBallot "v1" ["a", "b", "c"], rcBallot "v2" ["a", "b", "c"],
   rcBallot "v3" ["a", "c", "b"], rcBallot "v4" ["b", "a", "c"],
   rcBallot "v5" ["b", "c", "a"], rcBallot "v6" ["c", "b", "a"]]

/-- The repository's own two-round scenario (`test_single_elimination`):
`[A,B,C]×1, [A,C,B]×1, [B,A,C]×1, [B,C,A]×1, [C,B,A]×1`. -/
def irvScenarioBallots : List RankedChoiceBallot :=
  [rcBallot "v1" ["a", "b", "c"], rcBallot "v2" ["a", "c", "b"],
   rcBallot "v3" ["b", "a", "c"], rcBallot "v4" ["b", "c", "a"],
   rcBallot "v5" ["c", "b", "a"]]

/-- C1 (failing-input evaluation): a single-candidate IRV election with
one ballot ranking only the unknown id "x" aborts with a `KeyError`
instead of silently ignoring the unknown entry: `_get_active_choice`
returns "x" (it only filters eliminated candidates) and
`vote_counts["x"] += 1` raises. -/
theorem irv_unknown_candidate_raises :
    resolve_irv [⟨"a", "A"⟩] [rcBallot "v1" ["x"]] tbHead =
      some (.error "KeyError") := by
  rfl

/-- C3 (counterexample): on the ballot multiset exactly as the claim
states it (six ballots, `[A,B,C]` twice), the round-1 tally gives A three
first-choice votes — not the claimed two — and (with a first-element
tie-break) the election ends in a round-3 tie-break for A, not a round-2
majority for B. -/
theorem irv_scenario_claimed_refuted :
    (resolve_irv candsABC irvClaimedBallots tbHead).map (fun e =>
      e.toOption.map (fun p =>
        (dlookup (p.1.rounds.headD ⟨0, [], 0, 0, [], false⟩).vote_counts "a",
          p.1.winners, p.1.winning_round))) =
      some (some (some 3, ["a"], 3)) := by
  rfl

/-- C3 (amended): with `[A,B,C]` appearing once (five ballots, as in the
repository's own test), for every tie-break function: round 1 tallies
`{A:2, B:2, C:1}` and eliminates C without tie-break, round 2 tallies
`{A:2, B:3}`, and B wins with `winning_round = 2`, no tie-break invoked. -/
theorem irv_two_round_scenario (tb : TiebreakFunction) :
    resolve_irv candsABC irvScenarioBallots tb =
      some (.ok (⟨["b"], [("a", 2), ("b", 3)], 5, 0, false,
        [⟨1, [("a", 2), ("b", 2), ("c", 1)], 0, 5, ["c"], false⟩,
         ⟨2, [("a", 2), ("b", 3)], 0, 5, [], false⟩],
        0, 2⟩, [])) := by
  rfl

/-! ## Quadratic cost law (claim on `create_quadratic_ballot`) -/

def isError {α : Type} : Except String α → Bool
  | .error _ => true
  | .ok _ => false

theorem qValidateEntries_error_iff (an : Bool) :
    ∀ (allocs : Dict Int),
      isError (qValidateEntries an allocs) = true ↔
        ∃ p ∈ allocs, p.2 = 0 ∨ (an = false ∧ p.2 < 0)
  | [] => by simp [qValidateEntries, isError]
  | (k, v) :: rest => by
    simp only [qValidateEntries]
    by_cases h0 : v = 0
    · rw [if_pos h0]
      simp only [isError, true_iff]
      exact ⟨(k, v), by simp, Or.inl h0⟩
    · rw [if_neg h0]
      by_cases hng : ¬ an = true ∧ v < 0
      · rw [if_pos hng]
        simp only [isError, true_iff]
        refine ⟨(k, v), by simp, Or.inr ⟨by simpa using hng.1, hng.2⟩⟩
      · rw [if_neg hng]
        rw [qValidateEntries_error_iff an rest]
        constructor
        · rintro ⟨p, hp, hbad⟩
          exact ⟨p, List.mem_cons_of_mem _ hp, hbad⟩
        · rintro ⟨p, hp, hbad⟩
          rcases List.mem_cons.mp hp with rfl | hp'
          · exfalso
            rcases hbad with hbad | hbad
            · exact h0 hbad
            · exact hng ⟨by simp [hbad.1], hbad.2⟩
          · exact ⟨p, hp', hbad⟩

/-- C8 (amended): for every quadratic ballot, `quadratic_total_cost` is
the sum of `v*v` over the allocation values; with `validate = True`,
construction fails iff some allocation is zero, or negative while
negatives are disallowed, or the squared sum exceeds the credit budget;
with `validate = False`, construction never fails. -/
theorem quadratic_cost_law (voter : VoterId) (allocs : Dict Int)
    (credit_budget : Int) (allow_negative : Bool) :
    (∀ b : QuadraticBallot,
      quadratic_total_cost b = (b.allocations.map (fun p => p.2 * p.2)).sum) ∧
    (isError (create_quadratic_ballot voter (some allocs) credit_budget
        allow_negative true) = true ↔
      (∃ p ∈ allocs, p.2 = 0 ∨ (allow_negative = false ∧ p.2 < 0)) ∨
        (allocs.map (fun p => p.2 * p.2)).sum > credit_budget) ∧
    isError (create_quadratic_ballot voter (some allocs) credit_budget
      allow_negative false) = false := by
  refine ⟨fun b => rfl, ?_, rfl⟩
  simp only [create_quadratic_ballot, if_pos]
  cases hv : qValidateEntries allow_negative allocs with
  | error e =>
    have hbad := (qValidateEntries_error_iff allow_negative allocs).mp
      (by rw [hv]; rfl)
    simp only [isError, true_iff]
    exact Or.inl hbad
  | ok u =>
    have hgood : ¬ ∃ p ∈ allocs, p.2 = 0 ∨ (allow_negative = false ∧ p.2 < 0) := by
      intro hbad
      have := (qValidateEntries_error_iff allow_negative allocs).mpr hbad
      rw [hv] at this
      simp [isError] at this
    by_cases hs : (allocs.map (fun p => p.2 * p.2)).sum > credit_budget
    · rw [if_pos hs]
      simp only [isError, true_iff]
      exact Or.inr hs
    · rw [if_neg hs]
      constructor
      · intro hh
        simp [isError] at hh
      · rintro (hbad | hsum)
        · exact absurd hbad hgood
        · exact absurd hsum hs

/-- C8 (counterexample): a ballot whose only allocation is zero votes is
rejected by validation although its squared-cost sum (0) does not exceed
the budget (100) — refuting "construction fails iff that sum exceeds the
credit budget". (With `validate=False`, even an over-budget ballot is
accepted, refuting the other direction as well.) -/
theorem quadratic_cost_law_counterexample :
    isError (create_quadratic_ballot "v" (some [("a", 0)]) 100 true true) = true ∧
    ([(("a" : CandidateId), (0 : Int))].map (fun p => p.2 * p.2)).sum ≤ 100 ∧
    isError (create_quadratic_ballot "v" (some [("a", 99)]) 1 true false) = false ∧
    ([(("a" : CandidateId), (99 : Int))].map (fun p => p.2 * p.2)).sum > 1 := by
  refine ⟨rfl, by norm_num, rfl, by norm_num⟩

/-! ## Ranked-choice dual view (claim on `create_ranked_choice_ballot`) -/

theorem rankLookup_enumFrom :
    ∀ (l : List CandidateId) (n : Nat), l.Nodup →
      ∀ (i : Nat) (h : i < l.length),
        dlookup ((List.enumFrom n l).map (fun p => (p.2, p.1 + 1)))
          (l.get ⟨i, h⟩) = some (n + i + 1)
  | [], _, _, i, h => by simp at h
  | x :: xs, n, hnd, 0, h => by
    simp [dlookup]
  | x :: xs, n, hnd, i + 1, h => by
    simp only [List.enumFrom_cons, List.map_cons, dlookup, List.get_cons_succ]
    rw [if_neg ?_]
    · have := rankLookup_enumFrom xs (n + 1) (List.Nodup.of_cons hnd) i
        (by simpa [Nat.succ_lt_succ_iff] using h)
      rw [this]
      congr 1
      omega
    · intro hx
      refine (List.nodup_cons.mp hnd).1 ?_
      rw [hx]
      exact List.get_mem xs _ _

/-- C9 (confirmed): every ballot successfully built by
`create_ranked_choice_ballot` satisfies `rank_lookup[ranking[i]] = i + 1`
for every index `i`, and the keys of `rank_lookup`, in order, are exactly
`ranking`. -/
theorem ranked_choice_dual_view (voter : VoterId) (ranking : List CandidateId)
    (cands : Option (List CandidateId)) (b : RankedChoiceBallot)
    (h : create_ranked_choice_ballot voter (some ranking) cands = .ok b) :
    (∀ (i : Nat) (hi : i < b.ranking.length),
      dlookup b.rank_lookup (b.ranking.get ⟨i, hi⟩) = some (i + 1)) ∧
    dkeys b.rank_lookup = b.ranking := by
  simp only [create_ranked_choice_ballot] at h
  by_cases hdup : ranking.length ≠ (dedupFirst ranking).length
  · rw [if_pos hdup] at h
    cases h
  · rw [if_neg hdup] at h
    have hnd : ranking.Nodup :=
      nodup_of_dedupFirst_length ranking (not_ne_iff.mp hdup)
    have hb : b = ⟨voter, ranking, ranking.enum.map (fun p => (p.2, p.1 + 1))⟩ := by
      split at h
      · exact absurd h (by simp)
      · injection h with h'
        exact h'.symm
    subst hb
    constructor
    · intro i hi
      have := rankLookup_enumFrom ranking 0 hnd i hi
      simpa using this
    · show (ranking.enum.map (fun p => (p.2, p.1 + 1))).map Prod.fst = ranking
      rw [List.map_map]
      have : (Prod.fst ∘ fun p : Nat × CandidateId => (p.2, p.1 + 1)) =
          Prod.snd := rfl
      rw [this]
      exact List.enumFrom_map_snd 0 ranking

/-- C9 witness: the theorem applied to a concrete two-entry ranking. -/
theorem ranked_choice_dual_view_witness :
    dlookup [("a", 1), ("b", 2)] "b" = some 2 ∧
    dkeys ([("a", 1), ("b", 2)] : Dict Nat) = ["a", "b"] := by
  have h := ranked_choice_dual_view "v" ["a", "b"] none
    ⟨"v", ["a", "b"], [("a", 1), ("b", 2)]⟩ rfl
  exact ⟨h.1 1 (by norm_num), h.2⟩

/-! ## Approval-ballot construction: object identity (`approval.py`)

`create_approval_ballot` is the one constructor whose stored collection
can alias its argument: for a `list` it builds a fresh set
(`set(approvals)`), but for a `set` it stores the argument object itself
(`approval_set = approvals`). To make object identity observable the
caller's sets live in an explicit store: a location is an index and
in-place mutation (`s.add(...)`) is `write`. -/

structure SetStore where
  cells : List (List CandidateId)
deriving DecidableEq, Repr

def SetStore.read (h : SetStore) (loc : Nat) : List CandidateId :=
  h.cells.getD loc []

def SetStore.write (h : SetStore) (loc : Nat) (v : List CandidateId) :
    SetStore :=
  ⟨h.cells.set loc v⟩

def SetStore.alloc (h : SetStore) (v : List CandidateId) : SetStore × Nat :=
  (⟨h.cells ++ [v]⟩, h.cells.length)

/-- The `approvals` argument: `None`, a list, or an existing set object. -/
inductive ApprovalArg where
  | none
  | list (xs : List CandidateId)
  | setRef (loc : Nat)

/-- Reference-level approval ballot: `approvals` is the store location of
the set object the ballot holds. -/
structure ApprovalBallotRef where
  voter_id : VoterId
  approvals : Nat
deriving DecidableEq, Repr

/-- `approval.py` `create_approval_ballot`: `None` → fresh empty set;
a list → fresh set built from it; a set → the same set object. -/
def create_approval_ballot (h : SetStore) (voter_id : VoterId)
    (arg : ApprovalArg) : SetStore × ApprovalBallotRef :=
  match arg with
  | .none =>
    let a := h.alloc []
    (a.1, ⟨voter_id, a.2⟩)
  | .list xs =>
    let a := h.alloc (dedupFirst xs)
    (a.1, ⟨voter_id, a.2⟩)
  | .setRef loc => (h, ⟨voter_id, loc⟩)

/-- C5 (failing-input evaluation): build an approval ballot from the
caller's set object `{"a"}` (store location 0), then mutate the caller's
set to `{"a","b"}`. The ballot's stored collection changes with it — it
was `["a"]` right after construction and reads `["a","b"]` after the
caller's mutation — so no defensive copy was taken for a set argument.
A list argument, by contrast, is copied: the same mutation leaves that
ballot's collection at `["a"]`. -/
theorem approval_set_alias_observed :
    (create_approval_ballot ⟨[["a"]]⟩ "v1" (.setRef 0)).1.read
        (create_approval_ballot ⟨[["a"]]⟩ "v1" (.setRef 0)).2.approvals =
      ["a"] ∧
    ((create_approval_ballot ⟨[["a"]]⟩ "v1" (.setRef 0)).1.write 0
        ["a", "b"]).read
        (create_approval_ballot ⟨[["a"]]⟩ "v1" (.setRef 0)).2.approvals =
      ["a", "b"] ∧
    ((create_approval_ballot ⟨[["a"]]⟩ "v1" (.list ["a"])).1.write 0
        ["a", "b"]).read
        (create_approval_ballot ⟨[["a"]]⟩ "v1" (.list ["a"])).2.approvals =
      ["a"] := by
  exact ⟨rfl, rfl, rfl⟩

/-! ## Stable-sort analysis of `_sort_victories`

`_sort_victories` shuffles with the process-wide randomness source and
then runs two stable sorts. The lemmas below show the composite output is
sorted by (margin, winning-votes) lexicographically descending and is a
permutation of the input; when no two victories share a
(margin, winning-votes) key, the output is therefore independent of the
shuffle draw. -/

/-- Descending lexicographic "greater-or-equal" on (margin, winning votes). -/
def lexGE (v w : Victory) : Prop :=
  victoryMargin w < victoryMargin v ∨
    (victoryMargin v = victoryMargin w ∧ victoryWv w ≤ victoryWv v)

/-- The sort key pair: (margin, winning_votes). -/
def vkey (v : Victory) : Int × Int := (victoryMargin v, victoryWv v)

theorem insertStable_perm (key : Victory → Int) :
    ∀ (l : List Victory) (v : Victory),
      (insertStable key l v).Perm (v :: l)
  | [], _ => List.Perm.refl _
  | w :: ws, v => by
    simp only [insertStable]
    by_cases hk : key v > key w
    · rw [if_pos hk]
    · rw [if_neg hk]
      exact ((insertStable_perm key ws v).cons w).trans (List.Perm.swap v w ws)

theorem foldl_insertStable_perm (key : Victory → Int) :
    ∀ (l acc : List Victory),
      (l.foldl (insertStable key) acc).Perm (acc ++ l)
  | [], acc => by simp
  | v :: vs, acc => by
    simp only [List.foldl_cons]
    refine (foldl_insertStable_perm key vs (insertStable key acc v)).trans ?_
    refine (List.Perm.append_right vs (insertStable_perm key acc v)).trans ?_
    exact List.perm_middle.symm

theorem sortDescBy_perm (key : Victory → Int) (l : List Victory) :
    (sortDescBy key l).Perm l := by
  unfold sortDescBy
  simpa using foldl_insertStable_perm key l []

theorem insertStable_sorted (key : Victory → Int) :
    ∀ (acc : List Victory) (v : Victory),
      acc.Pairwise (fun a b => key b ≤ key a) →
      (insertStable key acc v).Pairwise (fun a b => key b ≤ key a)
  | [], v, _ => by simp [insertStable]
  | w :: ws, v, h => by
    obtain ⟨hw, hws⟩ := List.pairwise_cons.mp h
    simp only [insertStable]
    by_cases hk : key v > key w
    · rw [if_pos hk]
      refine List.Pairwise.cons ?_ h
      intro y hy
      rcases List.mem_cons.mp hy with rfl | hy'
      · exact le_of_lt hk
      · exact le_trans (hw y hy') (le_of_lt hk)
    · rw [if_neg hk]
      refine List.Pairwise.cons ?_ (insertStable_sorted key ws v hws)
      intro y hy
      rcases List.mem_cons.mp ((insertStable_perm key ws v).subset hy)
        with rfl | hy'
      · exact not_lt.mp hk
      · exact hw y hy'

theorem foldl_insertStable_sorted (key : Victory → Int) :
    ∀ (l acc : List Victory),
      acc.Pairwise (fun a b => key b ≤ key a) →
      (l.foldl (insertStable key) acc).Pairwise (fun a b => key b ≤ key a)
  | [], _, h => h
  | v :: vs, acc, h => by
    simp only [List.foldl_cons]
    exact foldl_insertStable_sorted key vs _ (insertStable_sorted key acc v h)

theorem sortDescBy_sorted (key : Victory → Int) (l : List Victory) :
    (sortDescBy key l).Pairwise (fun a b => key b ≤ key a) :=
  foldl_insertStable_sorted key l [] (List.Pairwise.nil)

theorem insertStable_lex :
    ∀ (acc : List Victory) (v : Victory), acc.Pairwise lexGE →
      (∀ y ∈ acc, victoryWv v ≤ victoryWv y) →
      (insertStable victoryMargin acc v).Pairwise lexGE
  | [], v, _, _ => by simp [insertStable]
  | w :: ws, v, h, hwv => by
    obtain ⟨hw, hws⟩ := List.pairwise_cons.mp h
    simp only [insertStable]
    by_cases hk : victoryMargin v > victoryMargin w
    · rw [if_pos hk]
      refine List.Pairwise.cons ?_ h
      intro y hy
      rcases List.mem_cons.mp hy with rfl | hy'
      · exact Or.inl hk
      · rcases hw y hy' with hmy | ⟨heq, _⟩
        · exact Or.inl (lt_trans hmy hk)
        · exact Or.inl (heq ▸ hk)
    · rw [if_neg hk]
      refine List.Pairwise.cons ?_
        (insertStable_lex ws v hws (fun y hy => hwv y (List.mem_cons_of_mem w hy)))
      intro y hy
      rcases List.mem_cons.mp ((insertStable_perm victoryMargin ws v).subset hy)
        with rfl | hy'
      · rcases lt_or_eq_of_le (not_lt.mp hk) with hlt | heq
        · exact Or.inl hlt
        · exact Or.inr ⟨heq.symm, hwv w (by simp)⟩
      · exact hw y hy'

theorem foldl_insertStable_lex :
    ∀ (l acc : List Victory), acc.Pairwise lexGE →
      l.Pairwise (fun a b => victoryWv b ≤ victoryWv a) →
      (∀ v ∈ l, ∀ y ∈ acc, victoryWv v ≤ victoryWv y) →
      (l.foldl (insertStable victoryMargin) acc).Pairwise lexGE
  | [], _, h, _, _ => h
  | v :: vs, acc, h, hl, hcross => by
    obtain ⟨hv, hvs⟩ := List.pairwise_cons.mp hl
    simp only [List.foldl_cons]
    refine foldl_insertStable_lex vs (insertStable victoryMargin acc v)
      (insertStable_lex acc v h (fun y hy => hcross v (by simp) y hy)) hvs ?_
    intro v' hv' y hy
    rcases List.mem_cons.mp ((insertStable_perm victoryMargin acc v).subset hy)
      with rfl | hy'
    · exact hv v' hv'
    · exact hcross v' (List.mem_cons_of_mem v hv') y hy'

theorem sort_victories_sorted (l : List Victory) :
    (sort_victories l).Pairwise lexGE := by
  unfold sort_victories
  unfold sortDescBy
  refine foldl_insertStable_lex _ [] List.Pairwise.nil ?_ (by simp)
  exact sortDescBy_sorted victoryWv l

theorem sort_victories_perm (l : List Victory) :
    (sort_victories l).Perm l :=
  (sortDescBy_perm victoryMargin _).trans (sortDescBy_perm victoryWv l)

theorem eq_of_mem_of_pairwise_ne :
    ∀ (l : List Victory), l.Pairwise (fun v w => vkey v ≠ vkey w) →
      ∀ a ∈ l, ∀ b ∈ l, vkey a = vkey b → a = b
  | [], _, a, ha, _, _, _ => by simp at ha
  | x :: xs, h, a, ha, b, hb, hk => by
    obtain ⟨hx, hxs⟩ := List.pairwise_cons.mp h
    rcases List.mem_cons.mp ha with rfl | ha' <;>
      rcases List.mem_cons.mp hb with rfl | hb'
    · rfl
    · exact absurd hk (hx b hb')
    · exact absurd hk.symm (hx a ha')
    · exact eq_of_mem_of_pairwise_ne xs hxs a ha' b hb' hk

/-- The stable double sort is determined by the multiset of victories
whenever no two victories share a (margin, winning-votes) key. -/
theorem sort_victories_eq_of_perm (l₁ l₂ : List Victory)
    (hp : l₁.Perm l₂) (hd : l₂.Pairwise (fun v w => vkey v ≠ vkey w)) :
    sort_victories l₁ = sort_victories l₂ := by
  have hperm : (sort_victories l₁).Perm (sort_victories l₂) :=
    ((sort_victories_perm l₁).trans hp).trans (sort_victories_perm l₂).symm
  refine List.Perm.eq_of_sorted ?_ (sort_victories_sorted l₁)
    (sort_victories_sorted l₂) hperm
  intro a b ha hb hab hba
  have ha2 : a ∈ l₂ := hp.subset ((sort_victories_perm l₁).subset ha)
  have hb2 : b ∈ l₂ := (sort_victories_perm l₂).subset hb
  refine eq_of_mem_of_pairwise_ne l₂ hd a ha2 b hb2 ?_
  have hm : victoryMargin a = victoryMargin b := by
    rcases hab with h | ⟨h, _⟩ <;> rcases hba with h' | ⟨h', _⟩ <;> omega
  have hw : victoryWv a = victoryWv b := by
    rcases hab with h | ⟨h1, h2⟩ <;> rcases hba with h' | ⟨h1', h2'⟩ <;> omega
  simp [vkey, hm, hw]

/-- The result of `_apply_ranked_pairs` depends on the shuffle draw only
through the sorted victory list. -/
theorem apply_ranked_pairs_congr (ids : List CandidateId)
    (m : PairwiseMatrix) (tb : TiebreakFunction)
    (s1 s2 : List Victory → List Victory)
    (h : ∀ vs, get_all_victories ids m = .ok vs →
      sort_victories (s1 vs) = sort_victories (s2 vs)) :
    apply_ranked_pairs ids m tb s1 = apply_ranked_pairs ids m tb s2 := by
  unfold apply_ranked_pairs
  cases hv : get_all_victories ids m with
  | error e => rfl
  | ok vs =>
    simp only [h vs hv]

/-- `resolve_ranked_pairs` depends on the shuffle draw only through the
sorted victory list. -/
theorem resolve_rp_shuffle_congr (candidates : List Candidate)
    (ballots : List RankedChoiceBallot) (tb : TiebreakFunction)
    (pm : Option PairwiseMatrix) (inc : Bool)
    (s1 s2 : List Victory → List Victory)
    (h : ∀ m vs, matrixFor candidates ballots pm = .ok m →
      get_all_victories (candidates.map (·.id)) m = .ok vs →
      sort_victories (s1 vs) = sort_victories (s2 vs)) :
    resolve_ranked_pairs candidates ballots tb pm inc s1 =
      resolve_ranked_pairs candidates ballots tb pm inc s2 := by
  simp only [resolve_ranked_pairs]
  by_cases h0 : candidates.length = 0
  · simp only [dif_pos h0]
  · simp only [dif_neg h0]
    by_cases h1 : candidates.length = 1
    · simp only [dif_pos h1]
    · simp only [dif_neg h1]
      cases hm : matrixFor candidates ballots pm with
      | error e => rfl
      | ok m =>
        simp only []
        cases hcw : find_condorcet_winner (candidates.map (·.id)) m with
        | error e => rfl
        | ok cw =>
          cases cw with
          | some w => rfl
          | none =>
            show rpCompletion (candidates.map (·.id)) m tb s1 ballots.length
                ((ballots.filter (fun b => rc_is_abstention b)).length) inc =
              rpCompletion (candidates.map (·.id)) m tb s2 ballots.length
                ((ballots.filter (fun b => rc_is_abstention b)).length) inc
            unfold rpCompletion
            rw [apply_ranked_pairs_congr (candidates.map (·.id)) m tb s1 s2
              (fun vs hvs => h m vs hm hvs)]

/-- C4 (amended): all resolvers other than ranked-pairs are pure
functions of (candidates, ballots, tie-break) — they read no randomness
source — while `resolve_ranked_pairs` additionally depends on the
process-wide `random.shuffle` draw taken inside `_sort_victories`. Two
runs of `resolve_ranked_pairs` with the same candidates, ballots and
tie-break function return equal results for any two shuffle draws
provided no two pairwise victories share the same
(margin, winning-votes) key; without that proviso the results can differ
(see the counterexample). -/
theorem rp_deterministic_when_keys_distinct (candidates : List Candidate)
    (ballots : List RankedChoiceBallot) (tb : TiebreakFunction)
    (pm : Option PairwiseMatrix) (inc : Bool)
    (s1 s2 : List Victory → List Victory)
    (hs1 : ∀ l, (s1 l).Perm l) (hs2 : ∀ l, (s2 l).Perm l)
    (hdistinct : ∀ m vs, matrixFor candidates ballots pm = .ok m →
      get_all_victories (candidates.map (·.id)) m = .ok vs →
      vs.Pairwise (fun v w => vkey v ≠ vkey w)) :
    resolve_ranked_pairs candidates ballots tb pm inc s1 =
      resolve_ranked_pairs candidates ballots tb pm inc s2 := by
  refine resolve_rp_shuffle_congr candidates ballots tb pm inc s1 s2 ?_
  intro m vs hm hvs
  have hd := hdistinct m vs hm hvs
  exact (sort_victories_eq_of_perm (s1 vs) vs (hs1 vs) hd).trans
    (sort_victories_eq_of_perm (s2 vs) vs (hs2 vs) hd).symm

/-- The three-ballot Condorcet cycle `A>B>C>A` in which every victory has
margin 1 and winning votes 2. -/
def cycBallots : List RankedChoiceBallot :=
  [rcBallot "v1" ["a", "b", "c"], rcBallot "v2" ["b", "c", "a"],
   rcBallot "v3" ["c", "a", "b"]]

/-- C4 (counterexample): on the all-tied three-ballot cycle, two runs of
`resolve_ranked_pairs` with the same candidates, ballots and (pure,
first-element) tie-break function but different shuffle draws return
different results — the identity draw elects "c", the reversing draw
elects "b" — because `_sort_victories` pre-shuffles with the
process-wide randomness source. This refutes determinism of two runs for
every resolution method. -/
theorem rp_depends_on_shuffle_draw :
    (resolve_ranked_pairs candsABC cycBallots tbHead none true id).toOption.map
        (fun p => p.1.winners) = some ["c"] ∧
    (resolve_ranked_pairs candsABC cycBallots tbHead none true
        List.reverse).toOption.map (fun p => p.1.winners) = some ["b"] := by
  exact ⟨rfl, rfl⟩

/-- Pairwise matrix realizing the margins of the Ranked-Pairs cycle
scenario: A beats B by 3 (4 to 1), B beats C by 3 (5 to 2), C beats A
by 1 (2 to 1). -/
def m7 : PairwiseMatrix :=
  [("a", [("b", 4), ("c", 1)]),
   ("b", [("a", 1), ("c", 5)]),
   ("c", [("a", 2), ("b", 2)])]

/-- The victory list `_get_all_victories` enumerates from `m7`. -/
def vs7 : List Victory :=
  [("a", "b", 3, 4), ("c", "a", 1, 2), ("b", "c", 3, 5)]

/-- C4 witness: the amended theorem applied at a concrete input. -/
theorem rp_deterministic_witness :
    resolve_ranked_pairs candsABC [] tbHead (some m7) true id =
      resolve_ranked_pairs candsABC [] tbHead (some m7) true List.reverse :=
  rp_deterministic_when_keys_distinct candsABC [] tbHead (some m7) true id
    List.reverse (fun l => List.Perm.refl l) (fun l => l.reverse_perm)
    (fun m vs hm hvs => by
      have hm' : m = m7 := by
        rw [show matrixFor candsABC [] (some m7) = Except.ok m7 from rfl] at hm
        exact (Except.ok.inj hm).symm
      subst hm'
      rw [show get_all_victories (candsABC.map (·.id)) m7 =
        Except.ok vs7 from rfl] at hvs
      rw [← Except.ok.inj hvs]
      decide)

/-- C7 (confirmed): on a pairwise matrix whose margins are A>B by 3,
B>C by 3 and C>A by 1, for every tie-break function and every shuffle
draw, `resolve_ranked_pairs` locks exactly the edges B→C and A→B (in
that sorted order), skips exactly C→A as cycle-creating, and returns
winner A with `had_condorcet_winner = false`, without invoking the
tie-break function. -/
theorem rp_cycle_scenario (tb : TiebreakFunction)
    (shuffle : List Victory → List Victory)
    (hshuffle : ∀ l, (shuffle l).Perm l) :
    resolve_ranked_pairs candsABC [] tb (some m7) true shuffle =
      .ok (⟨["a"], [("a", 1), ("b", 1), ("c", 1)], 0, 0, true, m7, false,
        [("b", "c", 3), ("a", "b", 3)], [("c", "a", 1)]⟩, []) := by
  have hcongr := resolve_rp_shuffle_congr candsABC [] tb (some m7) true
    shuffle id (fun m vs hm hvs => by
      have hm' : m = m7 := by
        rw [show matrixFor candsABC [] (some m7) = Except.ok m7 from rfl] at hm
        exact (Except.ok.inj hm).symm
      subst hm'
      rw [show get_all_victories (candsABC.map (·.id)) m7 =
        Except.ok vs7 from rfl] at hvs
      rw [← Except.ok.inj hvs]
      show sort_victories (shuffle vs7) = sort_victories (id vs7)
      exact sort_victories_eq_of_perm (shuffle vs7) vs7 (hshuffle vs7)
        (by decide))
  rw [hcongr]
  rfl

/-- C7 witness: the scenario theorem applied at the identity draw. -/
theorem rp_cycle_scenario_witness :
    resolve_ranked_pairs candsABC [] tbHead (some m7) true id =
      .ok (⟨["a"], [("a", 1), ("b", 1), ("c", 1)], 0, 0, true, m7, false,
        [("b", "c", 3), ("a", "b", 3)], [("c", "a", 1)]⟩, []) :=
  rp_cycle_scenario tbHead id (fun l => List.Perm.refl l)

/-! ## Quadratic winner rule (claim C6) -/

theorem contains_true_iff (l : List CandidateId) (x : CandidateId) :
    l.contains x = true ↔ x ∈ l := by
  simp

theorem qTallyBallot_unchanged (ids : List CandidateId) :
    ∀ (allocs : Dict Int) (st : Dict Int × Nat × Int),
      (∀ p ∈ allocs, ¬ ids.contains p.1 = true) →
      qTallyBallot ids st allocs = st
  | [], _, _ => rfl
  | p :: rest, st, h => by
    simp only [qTallyBallot, List.foldl_cons]
    rw [if_neg (h p (by simp))]
    exact qTallyBallot_unchanged ids rest st
      (fun q hq => h q (List.mem_cons_of_mem p hq))

theorem qTallyBallot_counted_le (ids : List CandidateId) :
    ∀ (allocs : Dict Int) (st : Dict Int × Nat × Int),
      st.2.1 ≤ (qTallyBallot ids st allocs).2.1
  | [], _ => le_refl _
  | p :: rest, st => by
    simp only [qTallyBallot, List.foldl_cons]
    by_cases h : ids.contains p.1 = true
    · rw [if_pos h]
      have := qTallyBallot_counted_le ids rest
        (daddAt st.1 p.1 p.2, st.2.1 + 1, st.2.2 + p.2 * p.2)
      exact le_trans (Nat.le_succ _) this
    · rw [if_neg h]
      exact qTallyBallot_counted_le ids rest st

theorem qTallyBallot_counted_lt (ids : List CandidateId) :
    ∀ (allocs : Dict Int) (st : Dict Int × Nat × Int),
      (∃ p ∈ allocs, ids.contains p.1 = true) →
      st.2.1 < (qTallyBallot ids st allocs).2.1
  | [], _, h => by simp at h
  | p :: rest, st, h => by
    simp only [qTallyBallot, List.foldl_cons]
    by_cases hc : ids.contains p.1 = true
    · rw [if_pos hc]
      have := qTallyBallot_counted_le ids rest
        (daddAt st.1 p.1 p.2, st.2.1 + 1, st.2.2 + p.2 * p.2)
      exact lt_of_lt_of_le (Nat.lt_succ_self _) this
    · rw [if_neg hc]
      obtain ⟨q, hq, hqc⟩ := h
      rcases List.mem_cons.mp hq with rfl | hq'
      · exact absurd hqc hc
      · exact qTallyBallot_counted_lt ids rest st ⟨q, hq', hqc⟩

theorem qTallyBallot_totals_keys (ids : List CandidateId) :
    ∀ (allocs : Dict Int) (st : Dict Int × Nat × Int),
      dkeys (qTallyBallot ids st allocs).1 = dkeys st.1
  | [], _ => rfl
  | p :: rest, st => by
    simp only [qTallyBallot, List.foldl_cons]
    by_cases h : ids.contains p.1 = true
    · rw [if_pos h]
      have := qTallyBallot_totals_keys ids rest
        (daddAt st.1 p.1 p.2, st.2.1 + 1, st.2.2 + p.2 * p.2)
      exact this.trans (daddAt_keys _ _ _)
    · rw [if_neg h]
      exact qTallyBallot_totals_keys ids rest st

theorem qStepBallot_unchanged (ids : List CandidateId) (st : QState)
    (b : QuadraticBallot)
    (h : ∀ p ∈ b.allocations, ¬ ids.contains p.1 = true) :
    (qStepBallot ids st b).vote_totals = st.vote_totals ∧
      (qStepBallot ids st b).counted_vote_allocations =
        st.counted_vote_allocations := by
  unfold qStepBallot
  by_cases ha : qb_is_abstention b
  · rw [if_pos ha]
    exact ⟨rfl, rfl⟩
  · rw [if_neg ha]
    have hT := qTallyBallot_unchanged ids b.allocations (st.vote_totals, 0, 0) h
    constructor
    · show (qTallyBallot ids (st.vote_totals, 0, 0) b.allocations).1 =
        st.vote_totals
      rw [hT]
    · show st.counted_vote_allocations +
          (qTallyBallot ids (st.vote_totals, 0, 0) b.allocations).2.1 =
        st.counted_vote_allocations
      rw [hT]
      rfl

theorem qStepBallot_counted_le (ids : List CandidateId) (st : QState)
    (b : QuadraticBallot) :
    st.counted_vote_allocations ≤
      (qStepBallot ids st b).counted_vote_allocations := by
  unfold qStepBallot
  by_cases ha : qb_is_abstention b
  · rw [if_pos ha]
  · rw [if_neg ha]
    exact Nat.le_add_right _ _

theorem qStepBallot_counted_lt (ids : List CandidateId) (st : QState)
    (b : QuadraticBallot)
    (h : ∃ p ∈ b.allocations, ids.contains p.1 = true) :
    st.counted_vote_allocations <
      (qStepBallot ids st b).counted_vote_allocations := by
  unfold qStepBallot
  have hab : ¬ qb_is_abstention b = true := by
    obtain ⟨p, hp, _⟩ := h
    simp only [qb_is_abstention, decide_eq_true_eq]
    intro hlen
    rw [List.length_eq_zero] at hlen
    rw [hlen] at hp
    simp at hp
  rw [if_neg hab]
  show st.counted_vote_allocations < st.counted_vote_allocations +
    (qTallyBallot ids (st.vote_totals, 0, 0) b.allocations).2.1
  have h0 := qTallyBallot_counted_lt ids b.allocations (st.vote_totals, 0, 0) h
  omega

theorem qStepBallot_totals_keys (ids : List CandidateId) (st : QState)
    (b : QuadraticBallot) :
    dkeys (qStepBallot ids st b).vote_totals = dkeys st.vote_totals := by
  unfold qStepBallot
  by_cases ha : qb_is_abstention b
  · rw [if_pos ha]
  · rw [if_neg ha]
    exact qTallyBallot_totals_keys ids b.allocations (st.vote_totals, 0, 0)

theorem qFold_unchanged (ids : List CandidateId) :
    ∀ (ballots : List QuadraticBallot) (st : QState),
      (∀ b ∈ ballots, ∀ p ∈ b.allocations, ¬ ids.contains p.1 = true) →
      (ballots.foldl (qStepBallot ids) st).vote_totals = st.vote_totals ∧
        (ballots.foldl (qStepBallot ids) st).counted_vote_allocations =
          st.counted_vote_allocations
  | [], _, _ => ⟨rfl, rfl⟩
  | b :: rest, st, h => by
    simp only [List.foldl_cons]
    have hstep := qStepBallot_unchanged ids st b (h b (by simp))
    have hrest := qFold_unchanged ids rest (qStepBallot ids st b)
      (fun b' hb' => h b' (List.mem_cons_of_mem b hb'))
    exact ⟨hrest.1.trans hstep.1, hrest.2.trans hstep.2⟩

theorem qFold_counted_le (ids : List CandidateId) :
    ∀ (ballots : List QuadraticBallot) (st : QState),
      st.counted_vote_allocations ≤
        (ballots.foldl (qStepBallot ids) st).counted_vote_allocations
  | [], _ => le_refl _
  | b :: rest, st => by
    simp only [List.foldl_cons]
    exact le_trans (qStepBallot_counted_le ids st b)
      (qFold_counted_le ids rest (qStepBallot ids st b))

theorem qFold_counted_lt (ids : List CandidateId) :
    ∀ (ballots : List QuadraticBallot) (st : QState),
      (∃ b ∈ ballots, ∃ p ∈ b.allocations, ids.contains p.1 = true) →
      st.counted_vote_allocations <
        (ballots.foldl (qStepBallot ids) st).counted_vote_allocations
  | [], _, h => by simp at h
  | b :: rest, st, h => by
    simp only [List.foldl_cons]
    obtain ⟨b', hb', hw⟩ := h
    rcases List.mem_cons.mp hb' with rfl | hb''
    · exact lt_of_lt_of_le (qStepBallot_counted_lt ids st b' hw)
        (qFold_counted_le ids rest _)
    · exact lt_of_le_of_lt (qStepBallot_counted_le ids st b)
        (qFold_counted_lt ids rest _ ⟨b', hb'', hw⟩)

theorem qFold_totals_keys (ids : List CandidateId) :
    ∀ (ballots : List QuadraticBallot) (st : QState),
      dkeys (ballots.foldl (qStepBallot ids) st).vote_totals =
        dkeys st.vote_totals
  | [], _ => rfl
  | b :: rest, st => by
    simp only [List.foldl_cons]
    exact (qFold_totals_keys ids rest (qStepBallot ids st b)).trans
      (qStepBallot_totals_keys ids st b)

/-- C6 (confirmed): if no ballot contributes any allocation to a
recognized candidate id, `resolve_quadratic` returns no winner with
`tiebreak_applied = false`, never invokes the tie-break function, and
every known candidate's net total is 0; otherwise it returns exactly one
winner whose net total is the maximum over all reported totals. -/
theorem quadratic_no_recognized_allocation (candidates : List Candidate)
    (ballots : List QuadraticBallot) (tb : TiebreakFunction) (htb : TBOk tb) :
    ((∀ b ∈ ballots, ∀ p ∈ b.allocations, p.1 ∉ candidates.map (·.id)) →
      (resolve_quadratic candidates ballots tb).1.winners = [] ∧
      (resolve_quadratic candidates ballots tb).1.tiebreak_applied = false ∧
      (resolve_quadratic candidates ballots tb).2 = [] ∧
      (∀ cid ∈ candidates.map (·.id),
        dlookup (resolve_quadratic candidates ballots tb).1.vote_totals cid =
          some 0)) ∧
    ((∃ b ∈ ballots, ∃ p ∈ b.allocations, p.1 ∈ candidates.map (·.id)) →
      ∃ w t, (resolve_quadratic candidates ballots tb).1.winners = [w] ∧
        dlookup (resolve_quadratic candidates ballots tb).1.vote_totals w =
          some t ∧
        ∀ p ∈ (resolve_quadratic candidates ballots tb).1.vote_totals,
          p.2 ≤ t) := by
  simp only [resolve_quadratic]
  set ids := dedupFirst (candidates.map (·.id)) with hids
  set init : Dict Int := ids.foldl (fun d cid => dinsert d cid 0) [] with hinit
  set st := ballots.foldl (qStepBallot ids) ⟨init, 0, 0, 0, [], 0⟩ with hst
  have hinitmap : init = ids.map (fun k => ((k : CandidateId), (0 : Int))) := by
    rw [hinit, foldl_dinsert_eq_map 0 ids [] (dedupFirst_nodup _) (by simp [dkeys])]
    simp
  constructor
  · intro hnone
    have hnone' : ∀ b ∈ ballots, ∀ p ∈ b.allocations,
        ¬ ids.contains p.1 = true := by
      intro b hb p hp hc
      exact hnone b hb p hp ((mem_dedupFirst p.1 _).mp ((contains_true_iff _ _).mp hc))
    have hU := qFold_unchanged ids ballots ⟨init, 0, 0, 0, [], 0⟩ hnone'
    have hc0 : st.counted_vote_allocations = 0 := by
      rw [hst]
      exact hU.2
    rw [if_pos hc0]
    refine ⟨rfl, rfl, rfl, ?_⟩
    intro cid hcid
    have htot : st.vote_totals = init := by
      rw [hst]
      exact hU.1
    show dlookup st.vote_totals cid = some 0
    rw [htot, hinitmap, dlookup_map_const,
      if_pos ((mem_dedupFirst cid _).mpr hcid)]
  · intro hsome
    obtain ⟨b, hb, p, hp, hpid⟩ := hsome
    have hsome' : ∃ b ∈ ballots, ∃ p ∈ b.allocations,
        ids.contains p.1 = true :=
      ⟨b, hb, p, hp, (contains_true_iff _ _).mpr ((mem_dedupFirst p.1 _).mpr hpid)⟩
    have hcpos : 0 < st.counted_vote_allocations := by
      rw [hst]
      exact qFold_counted_lt ids ballots ⟨init, 0, 0, 0, [], 0⟩ hsome'
    have hc0 : ¬ st.counted_vote_allocations = 0 := by omega
    rw [if_neg hc0]
    have hkeys : dkeys st.vote_totals = ids := by
      rw [hst, qFold_totals_keys ids ballots ⟨init, 0, 0, 0, [], 0⟩]
      show dkeys init = ids
      rw [hinitmap]
      show (ids.map (fun k => ((k : CandidateId), (0 : Int)))).map Prod.fst = ids
      rw [List.map_map]
      show List.map id ids = ids
      exact List.map_id ids
    have hndk : (dkeys st.vote_totals).Nodup := by
      rw [hkeys]
      exact dedupFirst_nodup _
    have hidsne : ids ≠ [] := by
      intro hnil
      obtain ⟨_, _, q, _, hqc⟩ := hsome'
      rw [hnil] at hqc
      simp at hqc
    have htotne : st.vote_totals ≠ [] := by
      intro hnil
      apply hidsne
      rw [← hkeys, hnil]
      rfl
    set mx := maxValues st.vote_totals with hmx
    set tied := (st.vote_totals.filter (fun p => p.2 = mx)).map (·.1) with htied
    have htne : tied ≠ [] := by
      rw [htied, hmx]
      exact tiedMax_ne_nil st.vote_totals htotne
    have hlook : ∀ w ∈ tied, dlookup st.vote_totals w = some mx := by
      intro w hw
      rw [htied] at hw
      obtain ⟨q, hq, hq1⟩ := List.mem_map.mp hw
      have hqf := List.mem_filter.mp hq
      have hql := dlookup_of_mem_nodup st.vote_totals q hndk hqf.1
      have hq2 : q.2 = mx := by
        have := hqf.2
        simpa using this
      rw [← hq1, hql, hq2]
    by_cases h1 : tied.length = 1
    · rw [if_pos h1]
      obtain ⟨t, ht⟩ := List.length_eq_one.mp h1
      refine ⟨t, mx, ?_, ?_, ?_⟩
      · exact ht
      · exact hlook t (by rw [ht]; simp)
      · intro q hq
        exact maxValues_ge st.vote_totals q hq
    · rw [if_neg h1]
      refine ⟨tb tied, mx, rfl, hlook _ (htb tied htne), ?_⟩
      intro q hq
      exact maxValues_ge st.vote_totals q hq

/-- C6 witness: one ballot allocating only to the unknown id "x" yields
no winner, no tie-break, and zero totals for both known candidates. -/
theorem quadratic_no_recognized_allocation_witness :
    (resolve_quadratic candsAB [⟨"v1", [("x", 5)], 100⟩] tbHead).1.winners = [] ∧
    (resolve_quadratic candsAB [⟨"v1", [("x", 5)], 100⟩] tbHead).1.tiebreak_applied
      = false ∧
    (resolve_quadratic candsAB [⟨"v1", [("x", 5)], 100⟩] tbHead).2 = [] ∧
    (∀ cid ∈ candsAB.map (·.id),
      dlookup (resolve_quadratic candsAB [⟨"v1", [("x", 5)], 100⟩]
        tbHead).1.vote_totals cid = some 0) :=
  (quadratic_no_recognized_allocation candsAB [⟨"v1", [("x", 5)], 100⟩]
    tbHead tbHead_ok).1 (by decide)

/-! ## IRV termination (claim C10)

Bookkeeping for the `while True:` loop of `resolve_irv`: each iteration
either returns (possibly with a `KeyError`) or strictly shrinks the
remaining-candidate set, so the loop terminates and records at most
`len(candidates) + 1` rounds. -/

theorem foldl_erase_length_le :
    ∀ (ts r : List CandidateId), (ts.foldl List.erase r).length ≤ r.length
  | [], _ => le_refl _
  | t :: ts, r => by
    simp only [List.foldl_cons]
    exact le_trans (foldl_erase_length_le ts (r.erase t))
      (List.length_erase_le t r)

theorem foldl_erase_length_lt :
    ∀ (ts r : List CandidateId), (∃ t ∈ ts, t ∈ r) →
      (ts.foldl List.erase r).length < r.length
  | [], _, h => by simp at h
  | t :: ts, r, h => by
    simp only [List.foldl_cons]
    by_cases ht : t ∈ r
    · have h1 : (r.erase t).length < r.length := by
        rw [List.length_erase_of_mem ht]
        have : 0 < r.length := List.length_pos.mpr
          (by intro hnil; rw [hnil] at ht; simp at ht)
        omega
      exact lt_of_le_of_lt (foldl_erase_length_le ts (r.erase t)) h1
    · rw [List.erase_of_not_mem ht]
      obtain ⟨t', ht', htr⟩ := h
      rcases List.mem_cons.mp ht' with rfl | ht''
      · exact absurd htr ht
      · exact foldl_erase_length_lt ts r ⟨t', ht'', htr⟩

theorem foldl_erase_nodup :
    ∀ (ts r : List CandidateId), r.Nodup → (ts.foldl List.erase r).Nodup
  | [], _, h => h
  | t :: ts, r, h => by
    simp only [List.foldl_cons]
    exact foldl_erase_nodup ts (r.erase t) (h.erase t)

theorem foldl_erase_length_eq :
    ∀ (ts r : List CandidateId), ts.Nodup → (∀ t ∈ ts, t ∈ r) →
      (ts.foldl List.erase r).length = r.length - ts.length
  | [], r, _, _ => by simp
  | t :: ts, r, hnd, hsub => by
    simp only [List.foldl_cons, List.length_cons]
    have ht : t ∈ r := hsub t (by simp)
    have hsub' : ∀ t' ∈ ts, t' ∈ r.erase t := by
      intro t' ht'
      refine List.mem_erase_of_ne ?_ |>.mpr (hsub t' (List.mem_cons_of_mem t ht'))
      intro hte
      subst hte
      exact (List.nodup_cons.mp hnd).1 ht'
    rw [foldl_erase_length_eq ts (r.erase t) (List.Nodup.of_cons hnd) hsub',
      List.length_erase_of_mem ht]
    omega

theorem length_filter_eq_add_ne (w : CandidateId) :
    ∀ (r : List CandidateId),
      r.length = (r.filter (fun c => c = w)).length +
        (r.filter (fun c => c ≠ w)).length
  | [] => rfl
  | x :: xs => by
    have ih := length_filter_eq_add_ne w xs
    simp only [List.filter_cons, List.length_cons]
    by_cases hx : x = w
    · rw [if_pos (by simpa using hx), if_neg (by simpa using hx)]
      simp only [List.length_cons]
      omega
    · rw [if_neg (by simpa using hx), if_pos (by simpa using hx)]
      simp only [List.length_cons]
      omega

theorem filter_eq_length_le_one (w : CandidateId) :
    ∀ (r : List CandidateId), r.Nodup →
      (r.filter (fun c => c = w)).length ≤ 1
  | [], _ => by simp
  | x :: xs, hnd => by
    by_cases hx : x = w
    · subst hx
      have hfe : xs.filter (fun c => c = x) = [] := by
        rw [List.filter_eq_nil_iff]
        intro c hc
        simp only [decide_eq_true_eq]
        intro hcx
        subst hcx
        exact (List.nodup_cons.mp hnd).1 hc
      simp [List.filter_cons, hfe]
    · have := filter_eq_length_le_one w xs (List.Nodup.of_cons hnd)
      simp only [List.filter_cons]
      rw [if_neg (by simpa using hx)]
      exact this

/-- Eliminating every remaining candidate except (at most) the tie-break
pick leaves at most one candidate. -/
theorem allTied_result_le_one (w : CandidateId) (r : List CandidateId)
    (hnd : r.Nodup) :
    ((r.filter (fun c => c ≠ w)).foldl List.erase r).length ≤ 1 := by
  have heq := foldl_erase_length_eq (r.filter (fun c => c ≠ w)) r
    (hnd.filter _) (fun t ht => List.mem_of_mem_filter ht)
  have hsplit := length_filter_eq_add_ne w r
  have hle1 := filter_eq_length_le_one w r hnd
  omega

theorem dkeys_foldl_dinsert {α : Type} (v0 : α) :
    ∀ (l : List CandidateId) (d : Dict α),
      dkeys (l.foldl (fun d k => dinsert d k v0) d) =
        l.foldl (fun acc x => if acc.contains x then acc else acc ++ [x])
          (dkeys d)
  | [], _ => rfl
  | k :: ks, d => by
    simp only [List.foldl_cons]
    rw [dkeys_foldl_dinsert v0 ks (dinsert d k v0)]
    congr 1
    rw [dkeys_dinsert]
    by_cases hm : k ∈ dkeys d
    · rw [if_pos hm, if_pos ((contains_true_iff _ _).mpr hm)]
    · rw [if_neg hm, if_neg (fun hc => hm ((contains_true_iff _ _).mp hc))]

theorem irvCount_init_keys (remaining : List CandidateId) :
    dkeys (remaining.foldl (fun d cid => dinsert d cid (0 : Int)) []) =
      dedupFirst remaining := by
  rw [dkeys_foldl_dinsert]
  rfl

theorem foldl_irvCountStep_error (eliminated : List CandidateId) (e : String) :
    ∀ (bs : List RankedChoiceBallot),
      bs.foldl (irvCountStep eliminated) (.error e) = .error e
  | [] => rfl
  | _ :: bs => foldl_irvCountStep_error eliminated e bs

theorem foldl_irvCountStep_keys (eliminated : List CandidateId) :
    ∀ (bs : List RankedChoiceBallot) (vc : Dict Int) (ex act : Nat)
      (vc' : Dict Int) (ex' act' : Nat),
      bs.foldl (irvCountStep eliminated) (.ok (vc, ex, act)) =
        .ok (vc', ex', act') →
      dkeys vc' = dkeys vc
  | [], vc, ex, act, vc', ex', act', h => by
    simp only [List.foldl_nil, Except.ok.injEq, Prod.mk.injEq] at h
    rw [← h.1]
  | b :: bs, vc, ex, act, vc', ex', act', h => by
    simp only [List.foldl_cons] at h
    cases hch : get_active_choice b eliminated with
    | none =>
      rw [show irvCountStep eliminated (.ok (vc, ex, act)) b =
          .ok (vc, ex + 1, act) from by simp [irvCountStep, hch]] at h
      exact foldl_irvCountStep_keys eliminated bs vc (ex + 1) act vc' ex' act' h
    | some c =>
      cases hin : dincr? vc c with
      | none =>
        rw [show irvCountStep eliminated (.ok (vc, ex, act)) b =
            .error "KeyError" from by simp [irvCountStep, hch, hin]] at h
        rw [foldl_irvCountStep_error] at h
        exact absurd h (by simp)
      | some vc2 =>
        rw [show irvCountStep eliminated (.ok (vc, ex, act)) b =
            .ok (vc2, ex, act + 1) from by simp [irvCountStep, hch, hin]] at h
        exact (foldl_irvCountStep_keys eliminated bs vc2 ex (act + 1) vc' ex'
          act' h).trans (dincr?_keys vc c vc2 hin)

theorem irvCount_keys (active : List RankedChoiceBallot)
    (remaining eliminated : List CandidateId) (vc : Dict Int) (ex act : Nat)
    (h : irvCount active remaining eliminated = .ok (vc, ex, act)) :
    dkeys vc = dedupFirst remaining := by
  unfold irvCount at h
  exact (foldl_irvCountStep_keys eliminated active _ 0 0 vc ex act h).trans
    (irvCount_init_keys remaining)

theorem tied_subset_keys (d : Dict Int) (pred : CandidateId × Int → Bool)
    (c : CandidateId) (h : c ∈ (d.filter pred).map (·.1)) : c ∈ dkeys d := by
  obtain ⟨q, hq, hq1⟩ := List.mem_map.mp h
  rw [← hq1]
  exact List.mem_map_of_mem Prod.fst (List.mem_of_mem_filter hq)

/-- Every iteration of the IRV round loop either fails (the `KeyError`),
returns a result recording at most `|remaining| + 1` further rounds, or
continues with strictly fewer (still duplicate-free) remaining
candidates and exactly one more recorded round. -/
theorem irvStep_cases (ctx : IRVCtx) (st : IRVState)
    (hnd : st.remaining.Nodup) :
    (∃ e, irvStep ctx st = .error e) ∨
    (∃ r calls, irvStep ctx st = .ok (.done r calls) ∧
      r.rounds.length ≤ st.rounds.length + st.remaining.length + 1) ∨
    (∃ st', irvStep ctx st = .ok (.next st') ∧
      st'.remaining.length < st.remaining.length ∧ st'.remaining.Nodup ∧
      st'.rounds.length = st.rounds.length + 1) := by
  unfold irvStep
  cases hcount : irvCount ctx.activeBallots st.remaining st.eliminated with
  | error e => exact Or.inl ⟨e, rfl⟩
  | ok t =>
    obtain ⟨vc, ex, act⟩ := t
    simp only []
    cases hfind : (vc.find? (fun p => 2 * p.2 > (act : Int))).map (·.1) with
    | some w =>
      refine Or.inr (Or.inl ⟨_, _, rfl, ?_⟩)
      simp only [List.length_append, List.length_cons, List.length_nil]
      omega
    | none =>
      by_cases hvc0 : vc.length = 0
      · rw [if_pos hvc0]
        refine Or.inr (Or.inl ⟨_, _, rfl, ?_⟩)
        simp only []
        omega
      · rw [if_neg hvc0]
        have hkeys : dkeys vc = st.remaining :=
          (irvCount_keys ctx.activeBallots st.remaining st.eliminated vc ex act
            hcount).trans (dedupFirst_eq_self_of_nodup _ hnd)
        have hvclen : vc.length = st.remaining.length := by
          have := congrArg List.length hkeys
          simpa [dkeys] using this
        have hvcne : vc ≠ [] := fun hnil => hvc0 (by rw [hnil]; rfl)
        have hremne : st.remaining.length ≠ 0 := by omega
        by_cases hall :
            ((vc.filter (fun p => p.2 = minValues vc)).map (·.1)).length ≥
              st.remaining.length
        · rw [if_pos hall]
          simp only []
          have hle1 : ((st.remaining.filter
                (fun c => c ≠ ctx.tb st.remaining)).foldl
              (fun r c => r.erase c) st.remaining).length ≤ 1 :=
            allTied_result_le_one (ctx.tb st.remaining) st.remaining hnd
          by_cases h1 :
              ((st.remaining.filter (fun c => c ≠ ctx.tb st.remaining)).foldl
                (fun r c => r.erase c) st.remaining).length = 1
          · rw [if_pos h1]
            obtain ⟨fw, hfw⟩ := List.length_eq_one.mp h1
            rw [hfw]
            simp only []
            cases hfc : irvCount ctx.activeBallots [fw]
              (st.eliminated ++
                st.remaining.filter (fun c => c ≠ ctx.tb st.remaining)) with
            | error e => exact Or.inl ⟨e, rfl⟩
            | ok t2 =>
              obtain ⟨fvc, fex, fact⟩ := t2
              refine Or.inr (Or.inl ⟨_, _, rfl, ?_⟩)
              simp only [List.length_append, List.length_cons, List.length_nil]
              omega
          · rw [if_neg h1]
            by_cases h0 :
                ((st.remaining.filter (fun c => c ≠ ctx.tb st.remaining)).foldl
                  (fun r c => r.erase c) st.remaining).length = 0
            · rw [if_pos h0]
              refine Or.inr (Or.inl ⟨_, _, rfl, ?_⟩)
              simp only [List.length_append, List.length_cons, List.length_nil]
              omega
            · exact absurd hle1 (by omega)
        · rw [if_neg hall]
          have hbulk : st.remaining.length -
              ((vc.filter (fun p => p.2 = minValues vc)).map (·.1)).length ≥ 1 := by
            omega
          rw [if_pos hbulk]
          simp only []
          have hcwmne : (vc.filter (fun p => p.2 = minValues vc)).map (·.1) ≠ [] :=
            tiedMin_ne_nil vc hvcne
          have hcwmsub : ∀ c ∈ (vc.filter (fun p => p.2 = minValues vc)).map (·.1),
              c ∈ st.remaining := by
            intro c hc
            rw [← hkeys]
            exact tied_subset_keys vc _ c hc
          have hlt :
              (((vc.filter (fun p => p.2 = minValues vc)).map (·.1)).foldl
                (fun r c => r.erase c) st.remaining).length <
                st.remaining.length := by
            refine foldl_erase_length_lt _ st.remaining ?_
            obtain ⟨c, hc⟩ := List.exists_mem_of_ne_nil _ hcwmne
            exact ⟨c, hc, hcwmsub c hc⟩
          have hnd' :
              (((vc.filter (fun p => p.2 = minValues vc)).map (·.1)).foldl
                (fun r c => r.erase c) st.remaining).Nodup :=
            foldl_erase_nodup _ st.remaining hnd
          by_cases h1 :
              (((vc.filter (fun p => p.2 = minValues vc)).map (·.1)).foldl
                (fun r c => r.erase c) st.remaining).length = 1
          · rw [if_pos h1]
            obtain ⟨fw, hfw⟩ := List.length_eq_one.mp h1
            rw [hfw]
            simp only []
            cases hfc : irvCount ctx.activeBallots [fw]
              (st.eliminated ++
                (vc.filter (fun p => p.2 = minValues vc)).map (·.1)) with
            | error e => exact Or.inl ⟨e, rfl⟩
            | ok t2 =>
              obtain ⟨fvc, fex, fact⟩ := t2
              refine Or.inr (Or.inl ⟨_, _, rfl, ?_⟩)
              simp only [List.length_append, List.length_cons, List.length_nil]
              omega
          · rw [if_neg h1]
            by_cases h0 :
                (((vc.filter (fun p => p.2 = minValues vc)).map (·.1)).foldl
                  (fun r c => r.erase c) st.remaining).length = 0
            · rw [if_pos h0]
              refine Or.inr (Or.inl ⟨_, _, rfl, ?_⟩)
              simp only [List.length_append, List.length_cons, List.length_nil]
              omega
            · rw [if_neg h0]
              refine Or.inr (Or.inr ⟨_, rfl, hlt, hnd', ?_⟩)
              simp only [List.length_append, List.length_cons, List.length_nil]

theorem irvLoop_succ (ctx : IRVCtx) (f : Nat) (st : IRVState) :
    irvLoop ctx (f + 1) st =
      match irvStep ctx st with
      | .error e => some (.error e)
      | .ok (.done r calls) => some (.ok (r, calls))
      | .ok (.next st') => irvLoop ctx f st' := rfl

/-- The IRV loop, started on a duplicate-free remaining set smaller than
its fuel, returns (never exhausts its fuel), its answer is independent of
any sufficient fuel, and a successful answer records at most
`|remaining| + 1` further rounds. -/
theorem irvLoop_spec (ctx : IRVCtx) :
    ∀ (fuel : Nat) (st : IRVState), st.remaining.Nodup →
      st.remaining.length < fuel →
      ∃ out, irvLoop ctx fuel st = some out ∧
        (∀ r calls, out = .ok (r, calls) →
          r.rounds.length ≤ st.rounds.length + st.remaining.length + 1) ∧
        (∀ fuel', st.remaining.length < fuel' →
          irvLoop ctx fuel' st = some out) := by
  intro fuel
  induction fuel with
  | zero =>
    intro st _ hlen
    omega
  | succ f ih =>
    intro st hnd hlen
    rcases irvStep_cases ctx st hnd with ⟨e, hstep⟩ |
      ⟨r, calls, hstep, hbound⟩ | ⟨st', hstep, hlt, hnd', hr⟩
    · refine ⟨.error e, ?_, ?_, ?_⟩
      · rw [irvLoop_succ, hstep]
      · intro r calls h
        exact absurd h (by simp)
      · intro fuel' hlen'
        cases fuel' with
        | zero => omega
        | succ g => rw [irvLoop_succ, hstep]
    · refine ⟨.ok (r, calls), ?_, ?_, ?_⟩
      · rw [irvLoop_succ, hstep]
      · intro r' calls' h
        simp only [Except.ok.injEq, Prod.mk.injEq] at h
        rw [← h.1]
        exact hbound
      · intro fuel' hlen'
        cases fuel' with
        | zero => omega
        | succ g => rw [irvLoop_succ, hstep]
    · have hlen2 : st'.remaining.length < f := by omega
      obtain ⟨out, hloop, hb, hfuel⟩ := ih st' hnd' hlen2
      refine ⟨out, ?_, ?_, ?_⟩
      · rw [irvLoop_succ, hstep]
        exact hloop
      · intro r calls h
        have := hb r calls h
        omega
      · intro fuel' hlen'
        cases fuel' with
        | zero => omega
        | succ g =>
          rw [irvLoop_succ, hstep]
          exact hfuel g (by omega)

/-- C10 (confirmed): `resolve_irv` terminates on every finite candidate
and ballot list — its round loop never exhausts the supplied fuel and is
independent of any larger fuel, because every iteration either returns
or strictly decreases the remaining-candidate set — and a successful
result records at most `len(candidates) + 1` rounds. -/
theorem resolve_irv_terminates (candidates : List Candidate)
    (ballots : List RankedChoiceBallot) (tb : TiebreakFunction) :
    ∃ out, resolve_irv candidates ballots tb = some out ∧
      (∀ fuel, candidates.length < fuel →
        irvLoop (irvContext candidates ballots tb) fuel
          (irvInitState candidates) = some out) ∧
      (∀ r calls, out = .ok (r, calls) →
        r.rounds.length ≤ candidates.length + 1) := by
  have hnd : (irvInitState candidates).remaining.Nodup := dedupFirst_nodup _
  have hlen : (irvInitState candidates).remaining.length ≤
      candidates.length := by
    have h := (dedupFirst_sublist (candidates.map (·.id))).length_le
    simpa [irvInitState] using h
  obtain ⟨out, hloop, hb, hfuel⟩ := irvLoop_spec
    (irvContext candidates ballots tb) (candidates.length + 1)
    (irvInitState candidates) hnd (by omega)
  refine ⟨out, hloop, ?_, ?_⟩
  · intro fuel hf
    exact hfuel fuel (by omega)
  · intro r calls h
    have hbb := hb r calls h
    have h0 : (irvInitState candidates).rounds.length = 0 := rfl
    omega

/-- C10 witness: the theorem applied to a one-candidate election, with
fuel 7 in place of the default 2. -/
theorem resolve_irv_terminates_witness :
    irvLoop (irvContext [⟨"a", "A"⟩] [] tbHead) 7 (irvInitState [⟨"a", "A"⟩]) =
      resolve_irv [⟨"a", "A"⟩] [] tbHead := by
  obtain ⟨out, h1, h2, h3⟩ := resolve_irv_terminates [⟨"a", "A"⟩] [] tbHead
  rw [h1, h2 7 (by norm_num)]

end VotingModel
